import Mathlib

/-!
Verification of the catalog compilation engine of the ShopifyTemplateFiller
repository (src/src/models.py, src/src/grouper.py, src/src/shopify_csv.py,
src/src/checkpoint.py, src/src/pipeline.py), as a shallow embedding in Lean.

Python strings are modelled as Lean `String` over their character lists
(the data handled by the engine is ASCII text, on which `lower()`,
`strip()`, whitespace tests and code-point comparison agree with the
embedded character-level operations); Python floats that only ever reach a
comparison (`0.3 * len(variants)` against an integer count,
`SequenceMatcher.ratio()` against `0.7`) are modelled exactly, with the
comparisons carried out in integer arithmetic and bridge lemmas relating
them to the rational-valued quantities used in theorem statements; Python
lists are Lean lists; Python `set`s of strings are duplicate-free Lean
lists used only through membership; a Python `None`-able value is an
`Option`; code that can raise an exception is modelled in the `Option`
monad, `none` standing for the raised exception.  Several loops are
written with an explicit fuel argument that provably dominates the loop
length, so that every definition evaluates by kernel reduction.
-/

namespace STF

/-! ### Python string primitives -/

/-- Python `str.strip()` on ASCII text: drop leading and trailing
whitespace. -/
def pyStrip (s : String) : String :=
  (((s.data.dropWhile (·.isWhitespace)).reverse.dropWhile (·.isWhitespace)).reverse).asString

/-- Python `str.lower()` on ASCII text. -/
def pyLower (s : String) : String := (s.data.map Char.toLower).asString

/-- Worker for `pySplitWs`, accumulating the current word reversed. -/
def splitWsAux : List Char → List Char → List String
  | [], cur => if cur = [] then [] else [cur.reverse.asString]
  | c :: rest, cur =>
      if c.isWhitespace then
        if cur = [] then splitWsAux rest []
        else cur.reverse.asString :: splitWsAux rest []
      else splitWsAux rest (c :: cur)

/-- Python `str.split()` with no separator: split on whitespace runs,
dropping empty pieces. -/
def pySplitWs (s : String) : List String := splitWsAux s.data []

/-- Python `sub in s` substring test. -/
def containsSubstr (s sub : String) : Bool :=
  s.data.tails.any (fun t => sub.data.isPrefixOf t)

/-- Python `str.capitalize()`: first character uppercased, the rest
lowercased. -/
def pyCapitalize (s : String) : String :=
  match s.data with
  | [] => ""
  | c :: rest => (c.toUpper :: rest.map Char.toLower).asString

/-- One step of Python `str.title()`: uppercase a letter that does not
follow a letter, lowercase every other letter.  The flag records whether
the previous character was alphabetic. -/
def pyTitleAux : List Char → Bool → List Char
  | [], _ => []
  | c :: rest, prevAlpha =>
      (if prevAlpha then c.toLower else c.toUpper) :: pyTitleAux rest c.isAlpha

/-- Python `str.title()`. -/
def pyTitle (s : String) : String :=
  (pyTitleAux s.data false).asString

/-- Python `'sep'.join(parts)`. -/
def joinWith (sep : String) (parts : List String) : String :=
  (List.intercalate sep.data (parts.map (·.data))).asString

/-- Python string comparison on character lists: lexicographic by code
point, a proper prefix comparing smaller. -/
def charListLe : List Char → List Char → Bool
  | [], _ => true
  | _ :: _, [] => false
  | a :: as, b :: bs => if a < b then true else if b < a then false else charListLe as bs

/-- Python `a <= b` on strings. -/
def strLe (a b : String) : Bool := charListLe a.data b.data

/-- Keep the first occurrence of every element (membership view of a
Python `set` built by successive insertions). -/
def dedupFirstAux (seen : List String) : List String → List String
  | [] => []
  | x :: xs => if x ∈ seen then dedupFirstAux seen xs else x :: dedupFirstAux (x :: seen) xs

def dedupFirst (l : List String) : List String := dedupFirstAux [] l

/-- Stable insertion into a sorted list. -/
def insertBy {α : Type} (le : α → α → Bool) (x : α) : List α → List α
  | [] => [x]
  | y :: ys => if le x y then x :: y :: ys else y :: insertBy le x ys

/-- Stable insertion sort, the semantics of Python `sorted(l)` for the
given total order. -/
def sortBy {α : Type} (le : α → α → Bool) (l : List α) : List α :=
  l.foldr (insertBy le) []

/-! ### Data model (src/src/models.py)

`ProductData` is the per-variant record (one input CSV row).  The
dynamically attached attribute `raw_images` (set by the parser in
`ProductParser._parse_row`, never a declared dataclass field) is modelled
as an `Option (List String)`: `none` means the attribute is absent, which
is how a freshly constructed or deserialized object comes back.  The
`variants` field holds the detected options, a list of `{name, value}`
dicts, modelled as pairs. -/

structure ProductData where
  brand : String
  upc_code : String
  name : String
  quantity : Int
  price : Rat
  tax : String := ""
  vat_percentage : String := ""
  total_with_vat : Rat := 0
  url : Option String := none
  images : List String := []
  description : String := ""
  category : String := "Other"
  tags : List String := []
  variants : List (String × String) := []
  product_group_id : Option String := none
  is_variant : Bool := true
  raw_images : Option (List String) := none
deriving Repr, DecidableEq

structure ProductGroup where
  base_name : String
  brand : String
  variants : List ProductData := []
  url : Option String := none
  images : List String := []
  description : String := ""
  category : String := "Other"
  tags : List String := []
deriving Repr, DecidableEq

/-- `ProductGroup.get_group_id`:
`f"{brand}_{base_name}".lower().replace(" ", "_")`. -/
def getGroupId (g : ProductGroup) : String :=
  ((pyLower (g.brand ++ "_" ++ g.base_name)).data.map
    (fun c => if c = ' ' then '_' else c)).asString

/-- `ProductGroup.add_variant`: append the variant and set its
`product_group_id` back-reference to this group's id. -/
def addVariant (g : ProductGroup) (p : ProductData) : ProductGroup :=
  { g with variants := g.variants ++ [{ p with product_group_id := some (getGroupId g) }] }

/-! ### Option-schema normalisation (src/src/shopify_csv.py) -/

/-- `ShopifyCSVGenerator._normalize_option_name`.  The fallback branch
(`name.split('/')[0].split()[0]`) raises `IndexError` when the text before
the first `/` has no whitespace token; that exception is the `none` case. -/
def normalizeOptionName (name : String) : Option String :=
  let nl := pyLower name
  if containsSubstr nl "flavor" || containsSubstr nl "scent" || containsSubstr nl "fragrance" then
    some "Flavor"
  else if containsSubstr nl "size" || containsSubstr nl "volume" || containsSubstr nl "weight" then
    some "Size"
  else if containsSubstr nl "color" || containsSubstr nl "colour" || containsSubstr nl "shade" then
    some "Color"
  else if containsSubstr nl "type" || containsSubstr nl "formula" || containsSubstr nl "finish" then
    some "Type"
  else if containsSubstr nl "material" || containsSubstr nl "fabric" then
    some "Material"
  else if containsSubstr nl "style" || containsSubstr nl "design" then
    some "Style"
  else
    match pySplitWs ((name.data.takeWhile (· ≠ '/')).asString) with
    | [] => none
    | w :: _ => some (pyCapitalize (pyStrip w))

/-- The set of normalised option categories one variant exhibits
(`seen_in_variant` in `_extract_standard_option_names_from_all`), as a
duplicate-free list; `none` when normalisation of one of its raw names
raises. -/
def seenInVariant (v : ProductData) : Option (List String) :=
  v.variants.foldlM (fun acc nv =>
    if pyStrip nv.1 ≠ "" then
      (normalizeOptionName (pyStrip nv.1)).map
        (fun n => if n ∈ acc then acc else acc ++ [n])
    else
      some acc) []

/-- The support threshold `max(1, len(variants) * 0.3)` as an exact
rational (0.3 · n stays far enough from every integer for the float
rounding of `0.3 * n` to agree with the exact value on all comparisons
against integer counts in this size range). -/
def supportThreshold (n : Nat) : Rat :=
  max 1 ((n : Rat) * (3 / 10))

/-- The comparison `count >= max(1, 0.3 * n)` in integer arithmetic. -/
def meetsSupport (n count : Nat) : Bool :=
  decide (1 ≤ count) && decide (3 * n ≤ 10 * count)

/-- The normalised option-name slots: `Option1 Name`, `Option2 Name`,
`Option3 Name`. -/
structure OptionNames where
  o1 : String := ""
  o2 : String := ""
  o3 : String := ""
deriving Repr, DecidableEq

/-- The per-category tally `option_counts` of
`_extract_standard_option_names_from_all`, paired with its category keys
(the dict's own insertion order is irrelevant: it is fed to `sorted`). -/
def optionCounts (sets : List (List String)) : List (String × Nat) :=
  (dedupFirst sets.flatten).map (fun c => (c, (sets.filter (fun s => c ∈ s)).length))

/-- The qualifying categories of
`_extract_standard_option_names_from_all`, before truncation to three:
`[opt for opt, count in sorted(option_counts.items()) if count >= threshold]`
(`sorted` on pairs with pairwise-distinct string keys orders them
lexicographically by key). -/
def qualifyingCategories (variants : List ProductData) : Option (List String) :=
  (variants.mapM seenInVariant).map (fun sets =>
    ((sortBy (fun a b => strLe a.1 b.1) (optionCounts sets)).filter
      (fun p => meetsSupport variants.length p.2)).map (·.1))

/-- `ShopifyCSVGenerator._extract_standard_option_names_from_all`:
count per normalised category how many variants exhibit it, keep the
categories whose count meets `max(1, 0.3 * len(variants))` in ascending
lexicographic order, truncate to three, pad with blanks. -/
def extractStandardOptionNames (variants : List ProductData) : Option OptionNames := do
  let qualifying := (← qualifyingCategories variants).take 3
  pure { o1 := qualifying.getD 0 "", o2 := qualifying.getD 1 "", o3 := qualifying.getD 2 "" }

/-- The per-row option fields: three names and three values. -/
structure VariantOptions where
  o1n : String := ""
  o1v : String := ""
  o2n : String := ""
  o2v : String := ""
  o3n : String := ""
  o3v : String := ""
deriving Repr, DecidableEq

/-- The `variant_map` of `_extract_variant_options`: normalised name to
value, last write wins, only entries whose stripped raw name and value are
both non-empty. -/
def variantMap (v : ProductData) : Option (List (String × String)) :=
  v.variants.foldlM (fun acc nv =>
    let rawName := pyStrip nv.1
    let value := pyStrip nv.2
    if rawName ≠ "" && value ≠ "" then
      (normalizeOptionName rawName).map (fun n => (acc.filter (·.1 ≠ n)) ++ [(n, value)])
    else
      some acc) []

/-- `ShopifyCSVGenerator._extract_variant_options`: start from the
standard names with empty values; fill a value slot only when the stripped
standard name is non-empty and present in this variant's normalised map. -/
def extractVariantOptions (v : ProductData) (stdNames : OptionNames) :
    Option VariantOptions := do
  let m ← variantMap v
  let valueFor := fun (n : String) =>
    if pyStrip n ≠ "" then
      match m.lookup (pyStrip n) with
      | some value => value
      | none => ""
    else ""
  pure { o1n := stdNames.o1, o1v := valueFor stdNames.o1,
         o2n := stdNames.o2, o2v := valueFor stdNames.o2,
         o3n := stdNames.o3, o3v := valueFor stdNames.o3 }

/-! ### Handle generation (src/src/shopify_csv.py) -/

/-- Replace each maximal whitespace run by a single hyphen
(`re.sub(r'\s+', '-', text)`); the flag records being inside a run. -/
def wsRunsToHyphenAux : Bool → List Char → List Char
  | _, [] => []
  | inRun, c :: rest =>
      if c.isWhitespace then
        if inRun then wsRunsToHyphenAux true rest
        else '-' :: wsRunsToHyphenAux true rest
      else c :: wsRunsToHyphenAux false rest

/-- Collapse each maximal hyphen run to a single hyphen
(`re.sub(r'-+', '-', text)`). -/
def collapseHyphensAux : Bool → List Char → List Char
  | _, [] => []
  | inRun, c :: rest =>
      if c = '-' then
        if inRun then collapseHyphensAux true rest
        else '-' :: collapseHyphensAux true rest
      else c :: collapseHyphensAux false rest

/-- Python `str.strip('-')`. -/
def stripHyphens (l : List Char) : List Char :=
  ((l.dropWhile (· = '-')).reverse.dropWhile (· = '-')).reverse

/-- `ShopifyCSVGenerator._sanitize_handle`: lowercase, strip accents (the
identity on ASCII text, the domain of this pipeline), drop every character
outside `[a-z0-9\s-]`, turn whitespace runs into hyphens, collapse hyphen
runs, strip outer hyphens, truncate to 255, `"product"` when empty. -/
def sanitizeHandle (text : String) : String :=
  let t := (pyLower text).data
  let t := t.filter (fun c => ('a' ≤ c && c ≤ 'z') || c.isDigit || c.isWhitespace || c = '-')
  let t := wsRunsToHyphenAux false t
  let t := collapseHyphensAux false t
  let t := stripHyphens t
  let t := t.take 255
  if t = [] then "product" else t.asString

/-- Python `upc[-4:]`: the last four characters (the whole string when
shorter). -/
def lastFour (s : String) : String := (s.data.drop (s.data.length - 4)).asString

/-- Decimal rendering of a natural number, i.e. Python `f"{counter}"` for
a non-negative int. -/
def natToDec (n : Nat) : String :=
  if n = 0 then "0"
  else (((Nat.digits 10 n).reverse.map (fun d => Char.ofNat (48 + d))).asString)

lemma asString_injective : Function.Injective List.asString := by
  intro a b h
  simpa [List.asString] using congrArg String.data h

lemma digitChar_inj : ∀ d1 < 10, ∀ d2 < 10,
    Char.ofNat (48 + d1) = Char.ofNat (48 + d2) → d1 = d2 := by decide

lemma map_digitChar_inj : ∀ l1 l2 : List Nat, (∀ d ∈ l1, d < 10) → (∀ d ∈ l2, d < 10) →
    l1.map (fun d => Char.ofNat (48 + d)) = l2.map (fun d => Char.ofNat (48 + d)) → l1 = l2 := by
  intro l1
  induction l1 with
  | nil => intro l2 _ _ h; cases l2 <;> simp_all
  | cons d l ih =>
      intro l2 h1 h2 h
      cases l2 with
      | nil => simp_all
      | cons e l2t =>
          simp only [List.map_cons, List.cons.injEq] at h
          have hd : d = e :=
            digitChar_inj d (h1 d (by simp)) e (h2 e (by simp)) h.1
          have ht : l = l2t :=
            ih l2t (fun x hx => h1 x (by simp [hx])) (fun x hx => h2 x (by simp [hx])) h.2
          rw [hd, ht]

lemma natToDec_pos_ne_zero_str : ∀ m : Nat, m ≠ 0 → natToDec m ≠ "0" := by
  intro m hm h
  have hform : natToDec m =
      ((Nat.digits 10 m).reverse.map (fun d => Char.ofNat (48 + d))).asString := by
    simp [natToDec, hm]
  have h2 : (Nat.digits 10 m).reverse.map (fun d => Char.ofNat (48 + d)) = ['0'] := by
    have := congrArg String.data (hform.symm.trans h)
    simpa [List.asString] using this
  rcases hd : (Nat.digits 10 m).reverse with _ | ⟨d, rest⟩
  · rw [hd] at h2; simp at h2
  · rw [hd] at h2
    rcases rest with _ | ⟨e, rest2⟩
    · simp only [List.map_cons, List.map_nil, List.cons.injEq, and_true] at h2
      have hdm : d ∈ Nat.digits 10 m := by
        have : d ∈ (Nat.digits 10 m).reverse := by rw [hd]; simp
        simpa using this
      have hdlt : d < 10 := Nat.digits_lt_base (by norm_num) hdm
      have hd0 : d = 0 := by
        have h0 : Char.ofNat (48 + d) = Char.ofNat (48 + 0) := by simpa using h2
        have := digitChar_inj d hdlt 0 (by norm_num) h0
        omega
      have hdig : Nat.digits 10 m = [0] := by
        have := congrArg List.reverse hd
        simpa [hd0] using this
      have hm0 : m = 0 := by
        have := Nat.ofDigits_digits 10 m
        rw [← this, hdig]
        simp [Nat.ofDigits]
      exact hm hm0
    · simp at h2

lemma natToDec_injective : Function.Injective natToDec := by
  intro n m h
  by_cases hn : n = 0 <;> by_cases hm : m = 0
  · rw [hn, hm]
  · exact absurd (by simpa [natToDec, hn] using h.symm) (natToDec_pos_ne_zero_str m hm)
  · exact absurd (by simpa [natToDec, hm] using h) (natToDec_pos_ne_zero_str n hn)
  · have hform : ∀ k : Nat, k ≠ 0 →
        natToDec k = ((Nat.digits 10 k).reverse.map (fun d => Char.ofNat (48 + d))).asString := by
      intro k hk; simp [natToDec, hk]
    rw [hform n hn, hform m hm] at h
    have h2 := asString_injective h
    have h3 := List.reverse_injective (map_digitChar_inj _ _
      (fun d hd => Nat.digits_lt_base (by norm_num) (by simpa using hd))
      (fun d hd => Nat.digits_lt_base (by norm_num) (by simpa using hd)) h2)
    calc n = Nat.ofDigits 10 (Nat.digits 10 n) := (Nat.ofDigits_digits 10 n).symm
    _ = Nat.ofDigits 10 (Nat.digits 10 m) := by rw [h3]
    _ = m := Nat.ofDigits_digits 10 m

lemma counter_candidate_injective (baseH : String) :
    Function.Injective (fun n : Nat => baseH ++ "-" ++ natToDec (n + 1)) := by
  intro a b h
  have h2 := congrArg String.data h
  simp only [String.data_append] at h2
  have h3 := List.append_cancel_left h2
  have h4 : natToDec (a + 1) = natToDec (b + 1) := by
    cases ha : natToDec (a + 1) with
    | mk da =>
      cases hb : natToDec (b + 1) with
      | mk db =>
        have hd : da = db := by
          have h5 := h3
          rw [ha, hb] at h5
          exact h5
        rw [hd]
  have := natToDec_injective h4
  omega

/-- The counter loop `while f"{base_handle}-{counter}" in seen` always
terminates: some counter value yields a fresh string, because the
candidate strings are pairwise distinct and `seen` is finite. -/
lemma exists_free_counter (seen : List String) (baseH : String) :
    ∃ n : Nat, baseH ++ "-" ++ natToDec (n + 1) ∉ seen := by
  by_contra hall
  push_neg at hall
  have hinf : {x | x ∈ seen}.Infinite :=
    Set.infinite_of_injective_forall_mem (counter_candidate_injective baseH)
      (fun n => hall n)
  exact seen.finite_toSet.not_infinite hinf

/-- `ShopifyCSVGenerator._generate_unique_handle`: sanitize
`brand-base_name`; on collision against the run-scoped `seen_handles` set
(modelled as a duplicate-insensitive list), try the first variant's UPC
(last four characters, then the whole UPC; both skipped when the group has
no variants), then the first free integer counter starting at 1. -/
def generateUniqueHandle (seen : List String) (g : ProductGroup) : String :=
  let baseH := sanitizeHandle (g.brand ++ "-" ++ g.base_name)
  if baseH ∉ seen then baseH
  else
    let tryUpc : Option String :=
      match g.variants with
      | [] => none
      | v :: _ =>
          let h1 := baseH ++ "-" ++ lastFour v.upc_code
          if h1 ∉ seen then some h1
          else
            let h2 := baseH ++ "-" ++ v.upc_code
            if h2 ∉ seen then some h2 else none
    match tryUpc with
    | some h => h
    | none => baseH ++ "-" ++ natToDec (Nat.find (exists_free_counter seen baseH) + 1)

/-- The handles issued by `generate_shopify_csv`'s per-group loop, each
one reserved in `seen_handles` (inside `_generate_unique_handle`) before
the next group is processed. -/
def issuedHandles (seen : List String) : List ProductGroup → List String
  | [] => []
  | g :: gs =>
      let h := generateUniqueHandle seen g
      h :: issuedHandles (h :: seen) gs

/-- The collision-candidate sequence of `_generate_unique_handle` for a
group with a first variant carrying external id `upc`: base handle, base
plus last-4-of-UPC, base plus full UPC, then base plus the integer
counters from 1. -/
def handleCandidate (g : ProductGroup) (upc : String) : Nat → String
  | 0 => sanitizeHandle (g.brand ++ "-" ++ g.base_name)
  | 1 => sanitizeHandle (g.brand ++ "-" ++ g.base_name) ++ "-" ++ lastFour upc
  | 2 => sanitizeHandle (g.brand ++ "-" ++ g.base_name) ++ "-" ++ upc
  | n + 3 => sanitizeHandle (g.brand ++ "-" ++ g.base_name) ++ "-" ++ natToDec (n + 1)

/-! ### Row compilation (src/src/shopify_csv.py) -/

/-- The per-variant image list read by `_generate_product_rows`:
`variant.raw_images if hasattr(variant, 'raw_images') and variant.raw_images else []`. -/
def variantImages (v : ProductData) : List String :=
  match v.raw_images with
  | some imgs => imgs
  | none => []

/-- The product-level part of a row (the `shared_data` / `row_data` dicts
of `_generate_product_rows`). -/
structure RowData where
  handle : String
  title : String
  bodyHtml : String
  vendor : String
  productCategory : String
  productType : String
  tagsJoined : String
  published : String
  status : String
deriving Repr, DecidableEq

/-- The `row_data` of the first variant: the shared data plus title and
description. -/
def firstRowData (g : ProductGroup) (handle : String) : RowData :=
  { handle := handle
    title := g.base_name
    bodyHtml := g.description
    vendor := g.brand
    productCategory := if g.category = "" then "Other" else g.category
    productType := g.category
    tagsJoined := joinWith "," g.tags
    published := "TRUE"
    status := "active" }

/-- The `row_data` of every later variant: blank product fields, vendor
and category restated. -/
def laterRowData (g : ProductGroup) (handle : String) : RowData :=
  { handle := handle
    title := ""
    bodyHtml := ""
    vendor := g.brand
    productCategory := if g.category = "" then "Other" else g.category
    productType := g.category
    tagsJoined := ""
    published := ""
    status := "" }

/-- One output row, restricted to the columns `_create_variant_row` fills
with non-constant values (the remaining Shopify columns are constants:
`Option.. Linked To`, `Variant Grams`, shipping/taxable flags, unit-price,
Google Shopping, SEO and gift-card fields). -/
structure CsvRow where
  handle : String
  title : String
  bodyHtml : String
  vendor : String
  productCategory : String
  productType : String
  tagsJoined : String
  published : String
  status : String
  opt1Name : String
  opt1Value : String
  opt2Name : String
  opt2Value : String
  opt3Name : String
  opt3Value : String
  variantSKU : String
  variantInventoryTracker : String
  variantInventoryPolicy : String
  variantFulfillmentService : String
  variantBarcode : String
  variantPrice : Rat
  imageSrc : String
  imagePosition : Option Nat
  imageAltText : String
deriving Repr, DecidableEq

/-- `ShopifyCSVGenerator._create_variant_row`.  SKU/inventory fields are
written only on a variant's first row; `Image Position` is blank when the
passed position is falsy (`None` or `0`); the alt text is blank when the
image URL is falsy. -/
def createVariantRow (rd : RowData) (v : ProductData) (opts : VariantOptions)
    (imageUrl : Option String) (imagePos : Option Nat) (isFirst : Bool) : CsvRow :=
  { handle := rd.handle, title := rd.title, bodyHtml := rd.bodyHtml, vendor := rd.vendor
    productCategory := rd.productCategory, productType := rd.productType
    tagsJoined := rd.tagsJoined, published := rd.published, status := rd.status
    opt1Name := opts.o1n, opt1Value := opts.o1v
    opt2Name := opts.o2n, opt2Value := opts.o2v
    opt3Name := opts.o3n, opt3Value := opts.o3v
    variantSKU := if isFirst then v.upc_code else ""
    variantInventoryTracker := if isFirst then "shopify" else ""
    variantInventoryPolicy := if isFirst then "continue" else ""
    variantFulfillmentService := if isFirst then "manual" else ""
    variantBarcode := if isFirst then v.upc_code else ""
    variantPrice := v.price
    imageSrc := imageUrl.getD ""
    imagePosition := match imagePos with
      | some p => if p = 0 then none else some p
      | none => none
    imageAltText := match imageUrl with
      | some u => if u = "" then "" else v.brand ++ " " ++ v.name
      | none => "" }

/-- The rows one variant contributes: one row per image (the first
carrying the SKU/inventory fields, the image position counter advancing
per row), or a single image-less row when the variant has no images.
Returns the rows and the next image position. -/
def rowsForVariant (rd : RowData) (v : ProductData) (opts : VariantOptions)
    (imgs : List String) (startPos : Nat) : List CsvRow × Nat :=
  match imgs with
  | [] => ([createVariantRow rd v opts none none true], startPos)
  | _ => (imgs.enum.map (fun p =>
            createVariantRow rd v opts (some p.2) (some (startPos + p.1)) (p.1 == 0)),
          startPos + imgs.length)

/-- The per-variant loop of `_generate_product_rows`: thread the variant
index (the first variant carries the product fields) and the running image
position across the whole product. -/
def processVariants (g : ProductGroup) (handle : String) (stdNames : OptionNames) :
    List ProductData → Nat → Nat → Option (List CsvRow)
  | [], _, _ => some []
  | v :: vs, idx, pos => do
      let opts ← extractVariantOptions v stdNames
      let rd := if idx = 0 then firstRowData g handle else laterRowData g handle
      let (vrows, pos2) := rowsForVariant rd v opts (variantImages v) pos
      let rest ← processVariants g handle stdNames vs (idx + 1) pos2
      pure (vrows ++ rest)

/-- `ShopifyCSVGenerator._generate_product_rows`: an empty variant list
yields no rows (logged warning); otherwise derive the standard option
names once and expand every variant.  `none` models the `IndexError` that
option-name normalisation can raise, which the caller catches per group. -/
def generateProductRows (g : ProductGroup) (handle : String) : Option (List CsvRow) :=
  if g.variants = [] then some []
  else do
    let stdNames ← extractStandardOptionNames g.variants
    processVariants g handle stdNames g.variants 0 1

/-- The row-accumulating loop of `generate_shopify_csv`: per group, issue
a handle (reserving it in `seen_handles` even when the group is later
skipped), skip the group when the handle is empty or row generation raises
(the per-group `except` clause), else append its rows. -/
def generateShopifyCsvAux (seen : List String) : List ProductGroup → List CsvRow
  | [] => []
  | g :: gs =>
      let h := generateUniqueHandle seen g
      let seen2 := h :: seen
      if h = "" then generateShopifyCsvAux seen2 gs
      else
        match generateProductRows g h with
        | none => generateShopifyCsvAux seen2 gs
        | some rs => rs ++ generateShopifyCsvAux seen2 gs

/-- `ShopifyCSVGenerator.generate_shopify_csv`, at the level of the list
of data rows of the produced CSV string (an empty list corresponds to the
returned empty string). -/
def generateShopifyCsv (groups : List ProductGroup) : List CsvRow :=
  if groups = [] then [] else generateShopifyCsvAux [] groups

/-! ### Base-name extraction (src/src/grouper.py)

`_extract_base_name` applies ten `re.sub(pattern, '', ...)` rules.  Each
pattern is embedded as a matcher `Option Char → List Char → Option Nat`
returning the length of the match starting at the current position, given
the previous character (for `\b`); the generic driver scans left to right
and deletes non-overlapping leftmost matches, exactly like `re.sub` with
an empty replacement (none of the patterns can match the empty string, and
every step consumes at least one character, so fuel `l.length` always
suffices). -/

/-- `\w` for the ASCII text this pipeline handles. -/
def isWordChar (c : Char) : Bool := c.isAlphanum || c = '_'

/-- A `\b` holds before the current position. -/
def boundaryBefore (prev : Option Char) : Bool :=
  match prev with
  | none => true
  | some c => !isWordChar c

/-- A `\b` holds at the start of the remaining text. -/
def boundaryAfterAt (l : List Char) : Bool :=
  match l with
  | [] => true
  | c :: _ => !isWordChar c

/-- Leftmost-non-overlapping deletion driver for `re.sub(pat, '', s)`. -/
def regexSubAux (m : Option Char → List Char → Option Nat) :
    Nat → Option Char → List Char → List Char
  | 0, _, l => l
  | _, _, [] => []
  | fuel + 1, prev, c :: rest =>
      match m prev (c :: rest) with
      | some (k + 1) =>
          regexSubAux m fuel (some (((c :: rest).take (k + 1)).getLastD c)) (rest.drop k)
      | _ => c :: regexSubAux m fuel (some c) rest

def regexSub (m : Option Char → List Char → Option Nat) (l : List Char) : List Char :=
  regexSubAux m l.length none l

/-- First alternative of a literal alternation that matches at this
position (Python alternation tries the branches left to right). -/
def matchLiteralAlt (alts : List String) (l : List Char) : Option Nat :=
  alts.findSome? (fun w => if w.data.isPrefixOf l then some w.length else none)

/-- A word alternation bracketed in `\b...\b`. -/
def matchWordAlt (words : List String) (prev : Option Char) (l : List Char) : Option Nat :=
  if boundaryBefore prev then
    words.findSome? (fun w =>
      if w.data.isPrefixOf l && boundaryAfterAt (l.drop w.length) then some w.length
      else none)
  else none

/-- `r'\d+\s*(ml|g|oz|kg|l|mg|lb|fl\.oz)'`. -/
def matchSizeUnit (_ : Option Char) (l : List Char) : Option Nat :=
  let ds := l.takeWhile (·.isDigit)
  if ds = [] then none
  else
    let l2 := l.drop ds.length
    let ws := l2.takeWhile (·.isWhitespace)
    (matchLiteralAlt ["ml", "g", "oz", "kg", "l", "mg", "lb", "fl.oz"] (l2.drop ws.length)).map
      (fun u => ds.length + ws.length + u)

/-- `r'\d+\s*pack'`. -/
def matchPack (_ : Option Char) (l : List Char) : Option Nat :=
  let ds := l.takeWhile (·.isDigit)
  if ds = [] then none
  else
    let l2 := l.drop ds.length
    let ws := l2.takeWhile (·.isWhitespace)
    (matchLiteralAlt ["pack"] (l2.drop ws.length)).map
      (fun u => ds.length + ws.length + u)

/-- `r'#?\d+'`. -/
def matchHashNum (_ : Option Char) (l : List Char) : Option Nat :=
  match l with
  | '#' :: rest =>
      let ds := rest.takeWhile (·.isDigit)
      if ds = [] then none else some (1 + ds.length)
  | _ =>
      let ds := l.takeWhile (·.isDigit)
      if ds = [] then none else some ds.length

def colorWords : List String :=
  ["black", "white", "red", "blue", "green", "yellow", "pink", "purple",
   "brown", "gray", "grey", "beige", "nude", "clear"]

def sizeTokens : List String :=
  ["small", "medium", "large", "xl", "xxl", "s", "m", "l"]

def flavorWords : List String :=
  ["vanilla", "chocolate", "mint", "rose", "lavender", "coconut", "lemon", "berry", "fruit"]

def shadeWords : List String :=
  ["light", "medium", "dark", "fair", "deep"]

def finishTokens : List String :=
  ["matte", "glossy", "shimmer", "metallic", "satin"]

/-- `r'\([^)]*\)'`. -/
def matchParens (_ : Option Char) (l : List Char) : Option Nat :=
  match l with
  | '(' :: rest => (rest.findIdx? (· = ')')).map (fun i => i + 2)
  | _ => none

/-- `r'\-\s*\w+$'`. -/
def matchTrailingDash (_ : Option Char) (l : List Char) : Option Nat :=
  match l with
  | '-' :: rest =>
      let ws := rest.takeWhile (·.isWhitespace)
      let r2 := rest.drop ws.length
      let w := r2.takeWhile isWordChar
      if w ≠ [] && r2.drop w.length = [] then some (1 + ws.length + w.length) else none
  | _ => none

/-- Replace each maximal whitespace run by a single space
(`re.sub(r'\s+', ' ', base)`). -/
def wsRunsToSpaceAux : Bool → List Char → List Char
  | _, [] => []
  | inRun, c :: rest =>
      if c.isWhitespace then
        if inRun then wsRunsToSpaceAux true rest
        else ' ' :: wsRunsToSpaceAux true rest
      else c :: wsRunsToSpaceAux false rest

/-- `ProductGrouper._extract_base_name`: lowercase and strip, delete the
ten variant-indicator patterns in order, normalise whitespace, delete
punctuation, fall back to the first three words of the original name when
fewer than three characters remain, then title-case. -/
def extractBaseName (name : String) : String :=
  let b0 := (pyStrip (pyLower name)).data
  let b1 := regexSub matchSizeUnit b0
  let b2 := regexSub matchPack b1
  let b3 := regexSub matchHashNum b2
  let b4 := regexSub (matchWordAlt colorWords) b3
  let b5 := regexSub (matchWordAlt sizeTokens) b4
  let b6 := regexSub (matchWordAlt flavorWords) b5
  let b7 := regexSub (matchWordAlt shadeWords) b6
  let b8 := regexSub (matchWordAlt finishTokens) b7
  let b9 := regexSub matchParens b8
  let b10 := regexSub matchTrailingDash b9
  let s1 := pyStrip (wsRunsToSpaceAux false b10).asString
  let s2 := pyStrip ((s1.data.filter (fun c => isWordChar c || c.isWhitespace)).asString)
  let s3 := if s2.length < 3 then joinWith " " ((pySplitWs name).take 3) else s2
  pyTitle s3

/-! ### difflib.SequenceMatcher(None, a, b).ratio()

Embedded from CPython difflib with `isjunk = None`, so the junk set is
empty and only the autojunk "popular character" filter on `b2j` applies
(characters of a `b` of length at least 200 occurring more than
`len(b) // 100 + 1` times never anchor a match); with an empty junk set
the junk extension loops of `find_longest_match` are no-ops and are
omitted. -/

def bPopular (b : List Char) (c : Char) : Bool :=
  b.length ≥ 200 && b.count c > b.length / 100 + 1

/-- `b2j[c]`: ascending positions of `c` in `b`, popular entries deleted. -/
def b2jPositions (b : List Char) (c : Char) : List Nat :=
  if bPopular b c then [] else (b.enum.filter (fun p => p.2 == c)).map (·.1)

/-- Inner loop of `find_longest_match` over the positions of `a[i]` in
`b`: build `newj2len` and update the best block under strict improvement
(so the earliest maximal block wins). -/
def flmScan (j2len : List (Nat × Nat)) (i blo bhi : Nat) :
    List Nat → List (Nat × Nat) → Nat × Nat × Nat → List (Nat × Nat) × (Nat × Nat × Nat)
  | [], newj2len, best => (newj2len, best)
  | j :: js, newj2len, best =>
      if j < blo then flmScan j2len i blo bhi js newj2len best
      else if bhi ≤ j then (newj2len, best)
      else
        let k := (if j = 0 then none else j2len.lookup (j - 1)).getD 0 + 1
        let best2 := if best.2.2 < k then (i + 1 - k, j + 1 - k, k) else best
        flmScan j2len i blo bhi js ((j, k) :: newj2len) best2

/-- Outer loop of `find_longest_match` over `i` in `[alo, ahi)`. -/
def flmOuter (a b : List Char) (blo bhi : Nat) :
    List Nat → List (Nat × Nat) → Nat × Nat × Nat → Nat × Nat × Nat
  | [], _, best => best
  | i :: is, j2len, best =>
      let (newj2len, best2) := flmScan j2len i blo bhi (b2jPositions b (a.getD i ' ')) [] best
      flmOuter a b blo bhi is newj2len best2

/-- Leftward non-junk extension of the best block; the fuel `besti`
dominates the number of steps. -/
def extLeft (a b : List Char) (alo blo : Nat) :
    Nat → Nat → Nat → Nat → Nat × Nat × Nat
  | 0, besti, bestj, bestsize => (besti, bestj, bestsize)
  | fuel + 1, besti, bestj, bestsize =>
      if alo < besti ∧ blo < bestj ∧ a.get? (besti - 1) = b.get? (bestj - 1) ∧
          (a.get? (besti - 1)).isSome then
        extLeft a b alo blo fuel (besti - 1) (bestj - 1) (bestsize + 1)
      else (besti, bestj, bestsize)

/-- Rightward non-junk extension of the best block; the fuel `ahi`
dominates the number of steps. -/
def extRight (a b : List Char) (ahi bhi : Nat) :
    Nat → Nat → Nat → Nat → Nat × Nat × Nat
  | 0, besti, bestj, bestsize => (besti, bestj, bestsize)
  | fuel + 1, besti, bestj, bestsize =>
      if besti + bestsize < ahi ∧ bestj + bestsize < bhi ∧
          a.get? (besti + bestsize) = b.get? (bestj + bestsize) ∧
          (a.get? (besti + bestsize)).isSome then
        extRight a b ahi bhi fuel besti bestj (bestsize + 1)
      else (besti, bestj, bestsize)

/-- `SequenceMatcher.find_longest_match` on the window
`a[alo:ahi] x b[blo:bhi]`. -/
def findLongestMatch (a b : List Char) (alo ahi blo bhi : Nat) : Nat × Nat × Nat :=
  let best := flmOuter a b blo bhi ((List.range ahi).drop alo) [] (alo, blo, 0)
  let e := extLeft a b alo blo best.1 best.1 best.2.1 best.2.2
  extRight a b ahi bhi ahi e.1 e.2.1 e.2.2

/-- Total size of the matching blocks (`get_matching_blocks` recursion;
merging adjacent blocks does not change the total).  The fuel bounds the
recursion depth: every recursive call shrinks the `a`-window by at least
the positive block size, so `a.length + 1` always suffices. -/
def matchingSize (a b : List Char) : Nat → Nat → Nat → Nat → Nat → Nat
  | 0, _, _, _, _ => 0
  | fuel + 1, alo, ahi, blo, bhi =>
      let m := findLongestMatch a b alo ahi blo bhi
      if m.2.2 = 0 then 0
      else matchingSize a b fuel alo m.1 blo m.2.1 + m.2.2 +
           matchingSize a b fuel (m.1 + m.2.2) ahi (m.2.1 + m.2.2) bhi

/-- The total matching size of the two whole strings. -/
def totalMatching (sa sb : String) : Nat :=
  matchingSize sa.data sb.data (sa.data.length + 1) 0 sa.data.length 0 sb.data.length

/-- `SequenceMatcher(None, a, b).ratio()` as an exact rational:
`2 * M / (len(a) + len(b))`, and `1.0` for two empty strings. -/
def ratioOf (sa sb : String) : Rat :=
  if sa.data.length + sb.data.length = 0 then 1
  else (2 * totalMatching sa sb : Rat) / ((sa.data.length + sb.data.length : Nat) : Rat)

/-- `GROUPING_CONFIG['similarity_threshold'] = 0.7`. -/
def similarityThreshold : Rat := 7 / 10

/-- The comparison `ratio >= 0.7` of `_is_similar`, carried out in integer
arithmetic: with `M` the total matching size and `T` the total length,
`2M/T ≥ 7/10` iff `7T ≤ 20M`, and two empty strings have ratio 1. -/
def ratioMeetsThreshold (sa sb : String) : Bool :=
  decide (7 * (sa.data.length + sb.data.length) ≤ 20 * totalMatching sa sb)

/-! ### Similarity test and clustering (src/src/grouper.py, config.py) -/

/-- The stop-word set removed before the keyword check. -/
def stopTokens : List String := ["the", "a", "an", "of", "for", "with", "and", "or"]

/-- `ProductGrouper._is_similar(base_name, product_name)`: similarity
ratio of the two derived base names against the threshold, else seed base
name as substring of the raw candidate name, else at least two distinct
non-stop-word seed tokens all occurring among the raw candidate name's
tokens. -/
def isSimilar (baseName productName : String) : Bool :=
  let productBase := extractBaseName productName
  if ratioMeetsThreshold (pyLower baseName) (pyLower productBase) then true
  else if containsSubstr (pyLower productName) (pyLower baseName) then true
  else
    let baseWords := dedupFirst ((pySplitWs (pyLower baseName)).filter (· ∉ stopTokens))
    let productWords := dedupFirst ((pySplitWs (pyLower productName)).filter (· ∉ stopTokens))
    decide (2 ≤ baseWords.length) && decide (∀ w ∈ baseWords, w ∈ productWords)

/-- The insertion-ordered keys of `ProductGrouper._group_by_brand`'s dict
(trimmed brands, first occurrence first). -/
def brandKeys (products : List ProductData) : List String :=
  products.foldl (fun ks p => if pyStrip p.brand ∈ ks then ks else ks ++ [pyStrip p.brand]) []

/-- `ProductGrouper._group_by_brand`: brand partitions in dict order, each
holding its products in input order. -/
def groupByBrand (products : List ProductData) : List (String × List ProductData) :=
  (brandKeys products).map (fun b => (b, products.filter (fun p => pyStrip p.brand == b)))

/-- `ProductGrouper._group_by_similarity`: pop the first remaining variant
as seed, bucket every remaining variant similar to the seed's base name,
keep the rest for the next round.  Each round consumes at least the seed,
so fuel `l.length` always suffices. -/
def groupBySimilarityAux (brand : String) : Nat → List ProductData → List ProductGroup
  | 0, _ => []
  | _, [] => []
  | fuel + 1, seed :: rest =>
      let seedBase := extractBaseName seed.name
      let part := rest.partition (fun p => isSimilar seedBase p.name)
      let group := (seed :: part.1).foldl addVariant
        { base_name := seedBase, brand := brand }
      group :: groupBySimilarityAux brand fuel part.2

def groupBySimilarity (brand : String) (products : List ProductData) : List ProductGroup :=
  groupBySimilarityAux brand products.length products

/-- `ProductGrouper.group_products`: brand partition, then greedy
similarity clustering inside each partition, clusters concatenated in
partition order. -/
def groupProducts (products : List ProductData) : List ProductGroup :=
  if products = [] then []
  else (groupByBrand products).flatMap (fun bp => groupBySimilarity bp.1 bp.2)

/-! ### Checkpoint store (src/src/checkpoint.py, src/src/models.py) -/

/-- The dict produced by `ProductData.to_dict` (`dataclasses.asdict`):
exactly the declared dataclass fields — the dynamically attached
`raw_images` attribute is not among them. -/
structure ProductDataDict where
  brand : String
  upc_code : String
  name : String
  quantity : Int
  price : Rat
  tax : String
  vat_percentage : String
  total_with_vat : Rat
  url : Option String
  images : List String
  description : String
  category : String
  tags : List String
  variants : List (String × String)
  product_group_id : Option String
  is_variant : Bool
deriving Repr, DecidableEq

/-- `ProductData.to_dict`. -/
def toDict (p : ProductData) : ProductDataDict :=
  { brand := p.brand, upc_code := p.upc_code, name := p.name, quantity := p.quantity
    price := p.price, tax := p.tax, vat_percentage := p.vat_percentage
    total_with_vat := p.total_with_vat, url := p.url, images := p.images
    description := p.description, category := p.category, tags := p.tags
    variants := p.variants, product_group_id := p.product_group_id
    is_variant := p.is_variant }

/-- `ProductData.from_dict`: `cls(**data)`.  The reconstructed object has
no `raw_images` attribute. -/
def fromDict (d : ProductDataDict) : ProductData :=
  { brand := d.brand, upc_code := d.upc_code, name := d.name, quantity := d.quantity
    price := d.price, tax := d.tax, vat_percentage := d.vat_percentage
    total_with_vat := d.total_with_vat, url := d.url, images := d.images
    description := d.description, category := d.category, tags := d.tags
    variants := d.variants, product_group_id := d.product_group_id
    is_variant := d.is_variant, raw_images := none }

/-- The serialized form of one group (`CheckpointManager._serialize_group`). -/
structure GroupDict where
  base_name : String
  brand : String
  url : Option String
  images : List String
  description : String
  category : String
  tags : List String
  variants : List ProductDataDict
deriving Repr, DecidableEq

def serializeGroup (g : ProductGroup) : GroupDict :=
  { base_name := g.base_name, brand := g.brand, url := g.url, images := g.images
    description := g.description, category := g.category, tags := g.tags
    variants := g.variants.map toDict }

/-- `CheckpointManager._deserialize_group`: rebuild the group shell, then
re-attach every variant through `add_variant` (which rewrites its
`product_group_id`). -/
def deserializeGroup (d : GroupDict) : ProductGroup :=
  let g0 : ProductGroup :=
    { base_name := d.base_name, brand := d.brand, url := d.url, images := d.images
      description := d.description, category := d.category, tags := d.tags }
  d.variants.foldl (fun g vd => addVariant g (fromDict vd)) g0

/-- The `product_groups` entry of the checkpoint payload written by
`save_checkpoint` (the JSON encoding/decoding of this structured value is
assumed faithful; file writing is atomic via the temp-file rename). -/
def saveCheckpointGroups (groups : List ProductGroup) : List GroupDict :=
  groups.map serializeGroup

/-- What `load_checkpoint` finds for a batch: no file, a file whose JSON
parse or deserialization raises, or a parsed payload. -/
inductive CheckpointFileState where
  | missing
  | corrupt
  | parsed (groups : List GroupDict)
deriving Repr, DecidableEq

/-- `CheckpointManager.load_checkpoint` over an abstract file store: a
missing file returns `None` directly; any exception on the read, parse or
deserialization path is caught and returns `None`; a parsed payload is
deserialized. -/
def loadCheckpoint (store : Nat → CheckpointFileState) (batchNum : Nat) :
    Option (List ProductGroup) :=
  match store batchNum with
  | .missing => none
  | .corrupt => none
  | .parsed ds => some (ds.map deserializeGroup)

/-! ### Batch orchestrator (src/src/pipeline.py)

`ProcessingStats` (src/src/models.py) declares the fields below (among
other counters irrelevant here) — and declares NO field named
`output_files_generated`; nothing on the `run()` path ever assigns that
attribute, so the augmented assignments
`stats.output_files_generated += ...` in `_generate_batch_output` raise
`AttributeError` on the attribute read. -/

structure RunStats where
  total_images : Nat := 0
  successfully_processed : Nat := 0
  failed_enrichment : Nat := 0
  csv_rows_generated : Nat := 0
  errors : List String := []
deriving Repr, DecidableEq

/-- Order-preserving, falsy-dropping dedup used for the pooled group
images (`[img for img in all_images if img and img not in seen ...]`). -/
def dedupImagesAux (seen : List String) : List String → List String
  | [] => []
  | img :: rest =>
      if img ≠ "" ∧ img ∉ seen then img :: dedupImagesAux (img :: seen) rest
      else dedupImagesAux seen rest

/-- The pooled image list `_process_batch` assigns to `group.images`. -/
def collectGroupImages (g : ProductGroup) : List String :=
  dedupImagesAux [] ((g.variants.map variantImages).flatten)

/-- `ProductEnrichmentPipeline._process_batch`: pool each group's variant
images (counting them into stats), then run per-group enrichment.  The
enrichment collaborator is abstracted as a function from the group to its
post-enrichment state plus a success flag; a worker failure only bumps the
failure counter (thread completion order only permutes commuting counter
increments, so the sequential fold is faithful). -/
def processBatch (enrich : ProductGroup → ProductGroup × Bool)
    (batch : List ProductGroup) (stats : RunStats) : List ProductGroup × RunStats :=
  let batch1 : List ProductGroup :=
    batch.map (fun g => { g with images := collectGroupImages g })
  let stats1 : RunStats := { stats with
    total_images := stats.total_images + (batch1.map (fun g => g.images.length)).sum }
  let enriched : List (ProductGroup × Bool) := batch1.map enrich
  let stats2 : RunStats := { stats1 with
    successfully_processed :=
      stats1.successfully_processed + (enriched.filter (·.2)).length
    failed_enrichment :=
      stats1.failed_enrichment + (enriched.filter (fun e => !e.2)).length }
  (enriched.map (·.1), stats2)

/-- `ProductEnrichmentPipeline._generate_batch_output`: generate the
batch's CSV; when it is empty return no files; otherwise the output
file(s) are written to disk (one when the row count fits
`records_per_file`, else ceil-many part files) and `csv_rows_generated` is
bumped — and then `stats.output_files_generated += ...` raises
`AttributeError` (`ProcessingStats` declares no such field), the
function's own `except` swallows it, and `[]` is returned.  Result:
(number of files written on disk, stats after the caught exception, the
returned file list — always empty). -/
def generateBatchOutput (batch : List ProductGroup) (recordsPerFile : Nat)
    (stats : RunStats) : Nat × RunStats × List String :=
  let rows := generateShopifyCsv batch
  if rows = [] then (0, stats, [])
  else
    let rowCount := rows.length
    let filesWritten :=
      if rowCount ≤ recordsPerFile then 1
      else (rowCount + recordsPerFile - 1) / recordsPerFile
    ((filesWritten, { stats with
        csv_rows_generated := stats.csv_rows_generated + rowCount }, []))

/-- The batch slices `product_groups[i : i + batch_size]`; fuel
`l.length` dominates the loop length for positive batch size. -/
def chunkListAux {α : Type} (bs : Nat) : Nat → List α → List (List α)
  | 0, _ => []
  | _, [] => []
  | fuel + 1, l => l.take bs :: chunkListAux bs fuel (l.drop bs)

def chunkList {α : Type} (bs : Nat) (l : List α) : List (List α) :=
  if bs = 0 then [] else chunkListAux bs l.length l

/-- The outcome of `ProductEnrichmentPipeline.run`, starting after the
parsing stage (the parser is an external collaborator; a parse failure or
an empty parse corresponds to `products = []`): the reported success flag,
the final stats, and the number of output files actually written to disk
during the run. -/
structure RunResult where
  success : Bool
  stats : RunStats
  filesWritten : Nat
deriving Repr, DecidableEq

/-- `ProductEnrichmentPipeline.run`: fail on no parsed products; group and
fail on no groups; then per batch run `_process_batch`, write the
checkpoint (no effect on the result), and call `_generate_batch_output`,
extending `all_output_files` with the returned (always empty) file list;
finally fail iff `all_output_files` is empty. -/
def runStep (enrich : ProductGroup → ProductGroup × Bool) (recordsPerFile : Nat)
    (acc : RunStats × Nat × List String) (batch : List ProductGroup) :
    RunStats × Nat × List String :=
  let pb := processBatch enrich batch acc.1
  let out := generateBatchOutput pb.1 recordsPerFile pb.2
  (out.2.1, acc.2.1 + out.1, acc.2.2 ++ out.2.2)

def runModel (products : List ProductData) (enrich : ProductGroup → ProductGroup × Bool)
    (batchSize recordsPerFile : Nat) : RunResult :=
  if products = [] then { success := false, stats := {}, filesWritten := 0 }
  else
    let groups := groupProducts products
    if groups = [] then { success := false, stats := {}, filesWritten := 0 }
    else
      let res := (chunkList batchSize groups).foldl
        (runStep enrich recordsPerFile) ({}, 0, [])
      { success := res.2.2 ≠ [], stats := res.1, filesWritten := res.2.1 }

/-! ## Supporting lemmas -/

lemma foldl_addVariant (l : List ProductData) (g : ProductGroup) :
    l.foldl addVariant g =
      { g with variants := (g.variants ++
          l.map (fun p => { p with product_group_id := some (getGroupId g) })) } := by
  induction l generalizing g with
  | nil => simp
  | cons p l ih =>
      rw [List.foldl_cons, ih]
      simp [addVariant, getGroupId]

lemma foldl_addVariant_comp (f : ProductData → ProductData) (l : List ProductData)
    (g : ProductGroup) :
    l.foldl (fun acc v => addVariant acc (f v)) g =
      { g with variants := (g.variants ++
          l.map (fun p => { f p with product_group_id := some (getGroupId g) })) } := by
  induction l generalizing g with
  | nil => simp
  | cons p l ih =>
      rw [List.foldl_cons, ih]
      simp [addVariant, getGroupId]

lemma roundTrip_group (g : ProductGroup) :
    deserializeGroup (serializeGroup g) =
      { g with variants := (g.variants.map (fun v =>
          { v with product_group_id := some (getGroupId g), raw_images := none })) } := by
  unfold deserializeGroup serializeGroup
  rw [List.foldl_map, foldl_addVariant_comp (fun v => fromDict (toDict v))]
  simp [getGroupId, fromDict, toDict]

lemma generateBatchOutput_returns_nil (batch : List ProductGroup) (rpf : Nat)
    (stats : RunStats) : (generateBatchOutput batch rpf stats).2.2 = [] := by
  simp only [generateBatchOutput]
  split <;> rfl

lemma run_foldl_no_files (l : List (List ProductGroup))
    (enrich : ProductGroup → ProductGroup × Bool) (rpf : Nat)
    (acc : RunStats × Nat × List String) :
    (l.foldl (runStep enrich rpf) acc).2.2 = acc.2.2 := by
  induction l generalizing acc with
  | nil => rfl
  | cons b l ih =>
      rw [List.foldl_cons, ih]
      simp [runStep, generateBatchOutput_returns_nil]

/-! ## Claim theorems -/

/-- C9: for every batch id, loading a checkpoint whose file is missing or
whose contents cannot be parsed returns the absent value (`None`) and
never raises (the embedding of `load_checkpoint` is a total function whose
only non-`None` outcome needs a parsed payload). -/
theorem C9_load_missing_or_corrupt_is_none
    (store : Nat → CheckpointFileState) (batchNum : Nat)
    (h : store batchNum = .missing ∨ store batchNum = .corrupt) :
    loadCheckpoint store batchNum = none := by
  unfold loadCheckpoint
  rcases h with h | h <;> rw [h]

/-- C9 witness: a store with batch 1 missing and batch 2 corrupt. -/
theorem C9_load_missing_or_corrupt_is_none_witness :
    loadCheckpoint (fun n => if n = 1 then .missing else .corrupt) 1 = none ∧
    loadCheckpoint (fun n => if n = 1 then .missing else .corrupt) 2 = none :=
  ⟨C9_load_missing_or_corrupt_is_none _ 1 (Or.inl rfl),
   C9_load_missing_or_corrupt_is_none _ 2 (Or.inr rfl)⟩

/-- A concrete group whose variant carries a `product_group_id` different
from the group id `add_variant` recomputes, plus images the row compiler
would read. -/
def rtGroup : ProductGroup :=
  { base_name := "Gel", brand := "Acme",
    variants := [{ brand := "Acme", upc_code := "77", name := "Gel 50ml", quantity := 1,
                   price := 5, product_group_id := none,
                   raw_images := some ["http://img/1.jpg"] }] }

/-- C8 counterexample: the checkpoint round trip does not preserve the
declared field `product_group_id` — `add_variant` inside
`_deserialize_group` rewrites it to the restored group's computed id —
so a variant saved with `product_group_id = None` comes back with
`product_group_id = "acme_gel"`. -/
theorem C8_counterexample :
    deserializeGroup (serializeGroup rtGroup) ≠ rtGroup ∧
    rtGroup.variants.map (·.product_group_id) = [none] ∧
    (deserializeGroup (serializeGroup rtGroup)).variants.map (·.product_group_id) =
      [some "acme_gel"] := by
  refine ⟨?_, by decide, by decide⟩
  intro h
  have := congrArg (fun g => g.variants.map (·.product_group_id)) h
  simp only at this
  rw [show (deserializeGroup (serializeGroup rtGroup)).variants.map (·.product_group_id) =
      [some "acme_gel"] from by decide] at this
  rw [show rtGroup.variants.map (·.product_group_id) = [none] from by decide] at this
  simp at this

/-- C8 (amended): the checkpoint round trip reconstructs every group with
identical `brand`, `base_name` and group-level fields, and every variant
identical on all declared dataclass fields except `product_group_id`,
which `add_variant` rewrites to the restored group's computed group id
(the undeclared `raw_images` attribute is likewise absent after the
round trip). -/
theorem C8_roundtrip_amended (g : ProductGroup) :
    deserializeGroup (serializeGroup g) =
      { g with variants := (g.variants.map (fun v =>
          { v with product_group_id := some (getGroupId g), raw_images := none })) } :=
  roundTrip_group g

/-- C1: the orchestrator's run never reports success, even when output
files are produced.  `ProcessingStats` declares no field
`output_files_generated`, so `stats.output_files_generated += 1` in
`_generate_batch_output` raises `AttributeError` after the batch's file
has been written; the function's own `except` swallows it and returns
`[]`, `all_output_files` stays empty, and `run` returns failure.  In
particular for a one-product input that parses, groups, and yields one CSV
row, one output file is written yet the run reports failure — where the
spec requires success. -/
theorem C1_run_always_fails :
    (∀ (products : List ProductData) (enrich : ProductGroup → ProductGroup × Bool)
      (batchSize recordsPerFile : Nat),
        (runModel products enrich batchSize recordsPerFile).success = false) ∧
    (runModel [{ brand := "Acme", upc_code := "12345", name := "Lipstick",
                 quantity := 1, price := 10 }]
      (fun g => (g, true)) 100 1000).filesWritten = 1 ∧
    (runModel [{ brand := "Acme", upc_code := "12345", name := "Lipstick",
                 quantity := 1, price := 10 }]
      (fun g => (g, true)) 100 1000).stats.csv_rows_generated = 1 := by
  refine ⟨?_, by decide, by decide⟩
  intro products enrich batchSize recordsPerFile
  simp only [runModel]
  split
  · rfl
  · split
    · rfl
    · simp [run_foldl_no_files]

lemma pyStrip_empty : pyStrip "" = "" := by decide

lemma extractVariantOptions_fields (v : ProductData) (s : OptionNames) (o : VariantOptions)
    (h : extractVariantOptions v s = some o) :
    o.o1n = s.o1 ∧ o.o2n = s.o2 ∧ o.o3n = s.o3 ∧
    (s.o1 = "" → o.o1v = "") ∧ (s.o2 = "" → o.o2v = "") ∧ (s.o3 = "" → o.o3v = "") := by
  cases hm : variantMap v with
  | none => simp [extractVariantOptions, hm] at h
  | some m =>
      simp only [extractVariantOptions, hm, Option.bind_eq_bind, Option.some_bind,
        Option.pure_def, Option.some.injEq] at h
      subst h
      refine ⟨rfl, rfl, rfl, ?_, ?_, ?_⟩ <;>
        · intro he
          simp only [he, pyStrip_empty]
          simp

lemma rowsForVariant_fields (rd : RowData) (v : ProductData) (opts : VariantOptions)
    (imgs : List String) (pos : Nat) :
    ∀ r ∈ (rowsForVariant rd v opts imgs pos).1,
      r.opt1Name = opts.o1n ∧ r.opt1Value = opts.o1v ∧
      r.opt2Name = opts.o2n ∧ r.opt2Value = opts.o2v ∧
      r.opt3Name = opts.o3n ∧ r.opt3Value = opts.o3v := by
  intro r hr
  cases imgs with
  | nil =>
      simp only [rowsForVariant, List.mem_singleton] at hr
      subst hr
      exact ⟨rfl, rfl, rfl, rfl, rfl, rfl⟩
  | cons i il =>
      simp only [rowsForVariant, List.mem_map] at hr
      obtain ⟨p, _, hp⟩ := hr
      subst hp
      exact ⟨rfl, rfl, rfl, rfl, rfl, rfl⟩

lemma processVariants_fields (g : ProductGroup) (handle : String) (s : OptionNames) :
    ∀ (vs : List ProductData) (idx pos : Nat) (rows : List CsvRow),
      processVariants g handle s vs idx pos = some rows →
      ∀ r ∈ rows, ∃ v opts, extractVariantOptions v s = some opts ∧
        r.opt1Name = opts.o1n ∧ r.opt1Value = opts.o1v ∧
        r.opt2Name = opts.o2n ∧ r.opt2Value = opts.o2v ∧
        r.opt3Name = opts.o3n ∧ r.opt3Value = opts.o3v := by
  intro vs
  induction vs with
  | nil =>
      intro idx pos rows hp r hr
      simp only [processVariants, Option.some.injEq] at hp
      subst hp
      simp at hr
  | cons v vs ih =>
      intro idx pos rows hp r hr
      simp only [processVariants] at hp
      cases ho : extractVariantOptions v s with
      | none => rw [ho] at hp; simp at hp
      | some opts =>
          rw [ho] at hp
          simp only [Option.bind_eq_bind, Option.some_bind] at hp
          cases hrest : processVariants g handle s vs (idx + 1)
              (rowsForVariant (if idx = 0 then firstRowData g handle else laterRowData g handle)
                v opts (variantImages v) pos).2 with
          | none => rw [hrest] at hp; simp at hp
          | some rest =>
              rw [hrest] at hp
              simp only [Option.bind_eq_bind, Option.some_bind, Option.pure_def,
                Option.some.injEq] at hp
              subst hp
              rcases List.mem_append.mp hr with hr1 | hr2
              · exact ⟨v, opts, ho, rowsForVariant_fields _ _ _ _ _ r hr1⟩
              · exact ih _ _ _ hrest r hr2

/-- C3: every row the row compiler emits pairs an empty `OptionN Name`
only with an empty `OptionN Value`; a value slot is filled only when the
(stripped) standard name for that slot is non-empty. -/
theorem C3_no_orphan_option_values (g : ProductGroup) (handle : String)
    (rows : List CsvRow) (h : generateProductRows g handle = some rows) :
    ∀ r ∈ rows,
      (r.opt1Name = "" → r.opt1Value = "") ∧
      (r.opt2Name = "" → r.opt2Value = "") ∧
      (r.opt3Name = "" → r.opt3Value = "") := by
  intro r hr
  by_cases hv : g.variants = []
  · simp only [generateProductRows, hv, if_pos, Option.some.injEq] at h
    subst h
    simp at hr
  · simp only [generateProductRows, if_neg hv] at h
    cases hs : extractStandardOptionNames g.variants with
    | none => rw [hs] at h; simp at h
    | some s =>
        rw [hs] at h
        simp only [Option.bind_eq_bind, Option.some_bind] at h
        obtain ⟨v, opts, ho, h1n, h1v, h2n, h2v, h3n, h3v⟩ :=
          processVariants_fields g handle s g.variants 0 1 rows h r hr
        obtain ⟨e1, e2, e3, f1, f2, f3⟩ := extractVariantOptions_fields v s opts ho
        refine ⟨?_, ?_, ?_⟩
        · intro hn; rw [h1v, f1 (by rw [← e1, ← h1n, hn])]
        · intro hn; rw [h2v, f2 (by rw [← e2, ← h2n, hn])]
        · intro hn; rw [h3v, f3 (by rw [← e3, ← h3n, hn])]

/-- A group whose single variant has no detected options: its row carries
empty option names and values. -/
def w3Group : ProductGroup :=
  { base_name := "Serum", brand := "Acme",
    variants := [{ brand := "Acme", upc_code := "11", name := "Serum", quantity := 1,
                   price := 3 }] }

def w3Rows : List CsvRow := (generateProductRows w3Group "serum-h").getD []

/-- C3 witness: the concrete row of `w3Group` has `Option1 Name` empty and
(by the theorem) `Option1 Value` empty. -/
theorem C3_no_orphan_option_values_witness :
    generateProductRows w3Group "serum-h" = some w3Rows ∧
    (w3Rows.map (fun r => r.opt1Name)) = [""] ∧
    (w3Rows.map (fun r => r.opt1Value)) = [""] ∧
    ∀ r ∈ w3Rows, r.opt1Value = "" :=
  ⟨by decide, by decide, by decide,
   fun r hr => ((C3_no_orphan_option_values w3Group "serum-h" w3Rows (by decide) r hr).1
     (by
        have : r.opt1Name ∈ w3Rows.map (fun r => r.opt1Name) := List.mem_map_of_mem _ hr
        rw [show w3Rows.map (fun r => r.opt1Name) = [""] from by decide] at this
        simpa using this))⟩

lemma rowsForVariant_length (rd : RowData) (v : ProductData) (opts : VariantOptions)
    (imgs : List String) (pos : Nat) :
    (rowsForVariant rd v opts imgs pos).1.length = max 1 imgs.length := by
  cases imgs with
  | nil => rfl
  | cons i il =>
      simp only [rowsForVariant, List.length_map, List.enum_length, List.length_cons]
      omega

lemma processVariants_length (g : ProductGroup) (handle : String) (s : OptionNames) :
    ∀ (vs : List ProductData) (idx pos : Nat) (rows : List CsvRow),
      processVariants g handle s vs idx pos = some rows →
      rows.length = (vs.map (fun v => max 1 (variantImages v).length)).sum := by
  intro vs
  induction vs with
  | nil =>
      intro idx pos rows hp
      simp only [processVariants, Option.some.injEq] at hp
      subst hp
      rfl
  | cons v vs ih =>
      intro idx pos rows hp
      simp only [processVariants] at hp
      cases ho : extractVariantOptions v s with
      | none => rw [ho] at hp; simp at hp
      | some opts =>
          rw [ho] at hp
          simp only [Option.bind_eq_bind, Option.some_bind] at hp
          cases hrest : processVariants g handle s vs (idx + 1)
              (rowsForVariant (if idx = 0 then firstRowData g handle else laterRowData g handle)
                v opts (variantImages v) pos).2 with
          | none => rw [hrest] at hp; simp at hp
          | some rest =>
              rw [hrest] at hp
              simp only [Option.bind_eq_bind, Option.some_bind, Option.pure_def,
                Option.some.injEq] at hp
              subst hp
              simp only [List.length_append, List.map_cons, List.sum_cons,
                rowsForVariant_length, ih _ _ _ hrest]

/-- A group whose single variant carries the detected option name `"/q"`:
`_normalize_option_name` raises `IndexError` on it, so row compilation
raises and the group is skipped with zero rows. -/
def c4Group : ProductGroup :=
  { base_name := "Oddity", brand := "Acme",
    variants := [{ brand := "Acme", upc_code := "42", name := "Oddity", quantity := 1,
                   price := 2, variants := [("/q", "v")] }] }

/-- C4 counterexample: a product group with one variant for which
compilation emits no rows at all — `_normalize_option_name('/q')` raises
`IndexError` (`'/q'.split('/')[0].split()[0]` indexes an empty list), the
per-group handler catches it, and the group contributes zero rows to the
CSV — contradicting "compiling it emits at least one row". -/
theorem C4_counterexample :
    c4Group.variants.length = 1 ∧
    generateProductRows c4Group "h" = none ∧
    generateShopifyCsv [c4Group] = [] := by
  refine ⟨by decide, by decide, by decide⟩

/-- C4 (amended): for every product group with at least one variant whose
row compilation succeeds (i.e. option-name normalisation raises no
exception), at least one row is emitted and the number of rows equals the
sum over its variants of `max 1 (number of own images)`; a variant with
zero images contributes exactly one row whose image fields are empty. -/
theorem C4_row_count_amended (g : ProductGroup) (handle : String) (rows : List CsvRow)
    (hne : g.variants ≠ []) (h : generateProductRows g handle = some rows) :
    1 ≤ rows.length ∧
    rows.length = (g.variants.map (fun v => max 1 (variantImages v).length)).sum ∧
    (∀ (rd : RowData) (v : ProductData) (opts : VariantOptions) (pos : Nat),
      variantImages v = [] →
      rowsForVariant rd v opts (variantImages v) pos =
        ([createVariantRow rd v opts none none true], pos) ∧
      (createVariantRow rd v opts none none true).imageSrc = "" ∧
      (createVariantRow rd v opts none none true).imagePosition = none) := by
  have hlen : rows.length = (g.variants.map (fun v => max 1 (variantImages v).length)).sum := by
    simp only [generateProductRows, if_neg hne] at h
    cases hs : extractStandardOptionNames g.variants with
    | none => rw [hs] at h; simp at h
    | some s =>
        rw [hs] at h
        simp only [Option.bind_eq_bind, Option.some_bind] at h
        exact processVariants_length g handle s g.variants 0 1 rows h
  refine ⟨?_, hlen, ?_⟩
  · rw [hlen]
    cases hv : g.variants with
    | nil => exact absurd hv hne
    | cons v vs =>
        simp only [List.map_cons, List.sum_cons]
        have : 1 ≤ max 1 (variantImages v).length := le_max_left 1 _
        omega
  · intro rd v opts pos himg
    rw [himg]
    exact ⟨rfl, rfl, rfl⟩

/-- A two-variant group, the first variant with two images, the second
with none: compilation emits 2 + 1 = 3 rows. -/
def w4Group : ProductGroup :=
  { base_name := "Mask", brand := "Acme",
    variants := [{ brand := "Acme", upc_code := "21", name := "Mask Green", quantity := 1,
                   price := 4, raw_images := some ["http://a/1.jpg", "http://a/2.jpg"] },
                 { brand := "Acme", upc_code := "22", name := "Mask Red", quantity := 1,
                   price := 4 }] }

def w4Rows : List CsvRow := (generateProductRows w4Group "mask-h").getD []

/-- C4 witness: the amended row-count law evaluated on `w4Group`. -/
theorem C4_row_count_amended_witness :
    w4Group.variants ≠ [] ∧
    generateProductRows w4Group "mask-h" = some w4Rows ∧
    1 ≤ w4Rows.length ∧
    w4Rows.length = (w4Group.variants.map (fun v => max 1 (variantImages v).length)).sum ∧
    w4Rows.length = 3 :=
  ⟨by decide, by decide,
   (C4_row_count_amended w4Group "mask-h" w4Rows (by decide) (by decide)).1,
   (C4_row_count_amended w4Group "mask-h" w4Rows (by decide) (by decide)).2.1,
   by decide⟩

lemma processVariants_no_images (g : ProductGroup) (handle : String) (s : OptionNames) :
    ∀ (vs : List ProductData) (idx pos : Nat) (rows : List CsvRow),
      (∀ v ∈ vs, variantImages v = []) →
      processVariants g handle s vs idx pos = some rows →
      ∀ r ∈ rows, r.imageSrc = "" ∧ r.imagePosition = none := by
  intro vs
  induction vs with
  | nil =>
      intro idx pos rows _ hp r hr
      simp only [processVariants, Option.some.injEq] at hp
      subst hp
      simp at hr
  | cons v vs ih =>
      intro idx pos rows hall hp r hr
      simp only [processVariants] at hp
      cases ho : extractVariantOptions v s with
      | none => rw [ho] at hp; simp at hp
      | some opts =>
          rw [ho] at hp
          simp only [Option.bind_eq_bind, Option.some_bind] at hp
          cases hrest : processVariants g handle s vs (idx + 1)
              (rowsForVariant (if idx = 0 then firstRowData g handle else laterRowData g handle)
                v opts (variantImages v) pos).2 with
          | none => rw [hrest] at hp; simp at hp
          | some rest =>
              rw [hrest] at hp
              simp only [Option.bind_eq_bind, Option.some_bind, Option.pure_def,
                Option.some.injEq] at hp
              subst hp
              rcases List.mem_append.mp hr with hr1 | hr2
              · rw [hall v (by simp)] at hr1
                simp only [rowsForVariant, List.mem_singleton] at hr1
                subst hr1
                exact ⟨rfl, rfl⟩
              · exact ih _ _ _ (fun x hx => hall x (by simp [hx])) hrest r hr2

/-- C10: checkpoint serialization keeps only the declared dataclass
fields, so the dynamically attached `raw_images` list is dropped: every
variant of a round-tripped group has no `raw_images`, and recompiling the
restored group emits only rows with empty `Image Src` and
`Image Position`. -/
theorem C10_raw_images_dropped (g : ProductGroup) (handle : String) :
    (∀ v ∈ (deserializeGroup (serializeGroup g)).variants, v.raw_images = none) ∧
    (∀ rows, generateProductRows (deserializeGroup (serializeGroup g)) handle = some rows →
      ∀ r ∈ rows, r.imageSrc = "" ∧ r.imagePosition = none) := by
  rw [roundTrip_group]
  constructor
  · intro v hv
    simp only [List.mem_map] at hv
    obtain ⟨v0, _, hv0⟩ := hv
    rw [← hv0]
  · intro rows h r hr
    by_cases hv : (g.variants.map (fun v =>
        ({ v with product_group_id := some (getGroupId g), raw_images := none } : ProductData))) = []
    · simp only [generateProductRows, hv] at h
      simp only [if_pos, Option.some.injEq] at h
      subst h
      simp at hr
    · simp only [generateProductRows] at h
      rw [if_neg hv] at h
      cases hs : extractStandardOptionNames (g.variants.map (fun v =>
          ({ v with product_group_id := some (getGroupId g), raw_images := none } : ProductData))) with
      | none => rw [hs] at h; simp at h
      | some s =>
          rw [hs] at h
          simp only [Option.bind_eq_bind, Option.some_bind] at h
          refine processVariants_no_images _ handle s _ 0 1 rows ?_ h r hr
          intro v hv2
          simp only [List.mem_map] at hv2
          obtain ⟨v0, _, hv0⟩ := hv2
          rw [← hv0]
          rfl

/-- A group carrying a variant with two attached raw images. -/
def w10Group : ProductGroup :=
  { base_name := "Balm", brand := "B",
    variants := [{ brand := "B", upc_code := "9", name := "Balm", quantity := 1,
                   price := 1, raw_images := some ["http://a/1.jpg", "http://a/2.jpg"] }] }

def w10Restored : ProductGroup := deserializeGroup (serializeGroup w10Group)

def w10Rows : List CsvRow := (generateProductRows w10Restored "balm-h").getD []

/-- C10 witness: the round-tripped `w10Group` concretely loses its images:
its (unique) restored variant has `raw_images = none`, and its compiled
row has blank image fields, by the theorem. -/
theorem C10_raw_images_dropped_witness :
    (w10Restored.variants.map (fun v => v.raw_images)) = [none] ∧
    generateProductRows w10Restored "balm-h" = some w10Rows ∧
    w10Rows.length = 1 ∧
    ∀ r ∈ w10Rows, r.imageSrc = "" ∧ r.imagePosition = none :=
  ⟨by decide, by decide, by decide,
   fun r hr => (C10_raw_images_dropped w10Group "balm-h").2 w10Rows (by decide) r hr⟩

lemma generateUniqueHandle_not_mem (seen : List String) (g : ProductGroup) :
    generateUniqueHandle seen g ∉ seen := by
  simp only [generateUniqueHandle]
  by_cases hb : sanitizeHandle (g.brand ++ "-" ++ g.base_name) ∉ seen
  · rw [if_pos hb]; exact hb
  · rw [if_neg hb]
    cases hv : g.variants with
    | nil => exact Nat.find_spec (exists_free_counter seen (sanitizeHandle (g.brand ++ "-" ++ g.base_name)))
    | cons v vs =>
        by_cases h1 : sanitizeHandle (g.brand ++ "-" ++ g.base_name) ++ "-" ++
            lastFour v.upc_code ∉ seen
        · simpa [h1] using h1
        · by_cases h2 : sanitizeHandle (g.brand ++ "-" ++ g.base_name) ++ "-" ++
              v.upc_code ∉ seen
          · simpa [h1, h2] using h2
          · simpa [h1, h2] using
              Nat.find_spec (exists_free_counter seen
                (sanitizeHandle (g.brand ++ "-" ++ g.base_name)))

lemma issuedHandles_nodup_aux :
    ∀ (gs : List ProductGroup) (seen : List String),
      (issuedHandles seen gs).Nodup ∧ ∀ x ∈ issuedHandles seen gs, x ∉ seen := by
  intro gs
  induction gs with
  | nil => intro seen; simp [issuedHandles]
  | cons g gs ih =>
      intro seen
      simp only [issuedHandles, List.nodup_cons, List.mem_cons]
      obtain ⟨ihn, ihm⟩ := ih (generateUniqueHandle seen g :: seen)
      refine ⟨⟨fun hmem => ?_, ihn⟩, ?_⟩
      · exact (ihm _ hmem) (by simp)
      · rintro x (rfl | hx)
        · exact generateUniqueHandle_not_mem seen g
        · intro hxs
          exact (ihm x hx) (by simp [hxs])

/-- C2: in any run, no two groups are issued the same handle, and on
collision the candidates are tried in the fixed order: base handle, base
plus the last four characters of the first variant's external id, base
plus the full external id, base plus an integer counter from 1 — the
first candidate not in the run-scoped `seen_handles` set is issued. -/
theorem C2_handle_uniqueness :
    (∀ gs : List ProductGroup, (issuedHandles [] gs).Nodup) ∧
    (∀ (seen : List String) (g : ProductGroup) (v : ProductData) (vs : List ProductData),
      g.variants = v :: vs →
      ∃ k, generateUniqueHandle seen g = handleCandidate g v.upc_code k ∧
        handleCandidate g v.upc_code k ∉ seen ∧
        ∀ j < k, handleCandidate g v.upc_code j ∈ seen) := by
  constructor
  · intro gs
    exact (issuedHandles_nodup_aux gs []).1
  · intro seen g v vs hv
    simp only [generateUniqueHandle, hv]
    by_cases hb : sanitizeHandle (g.brand ++ "-" ++ g.base_name) ∉ seen
    · rw [if_pos hb]
      exact ⟨0, rfl, hb, fun j hj => absurd hj (by omega)⟩
    · rw [if_neg hb]
      push_neg at hb
      by_cases h1 : sanitizeHandle (g.brand ++ "-" ++ g.base_name) ++ "-" ++
          lastFour v.upc_code ∉ seen
      · refine ⟨1, by simp [h1, handleCandidate], by simpa [handleCandidate] using h1, ?_⟩
        intro j hj
        interval_cases j
        simp [handleCandidate, hb]
      · by_cases h2 : sanitizeHandle (g.brand ++ "-" ++ g.base_name) ++ "-" ++
            v.upc_code ∉ seen
        · refine ⟨2, by simp [h1, h2, handleCandidate], by simpa [handleCandidate] using h2, ?_⟩
          intro j hj
          interval_cases j
          · simp [handleCandidate, hb]
          · simpa [handleCandidate] using not_not.mp h1
        · refine ⟨Nat.find (exists_free_counter seen
              (sanitizeHandle (g.brand ++ "-" ++ g.base_name))) + 3,
            by simp [h1, h2, handleCandidate], ?_, ?_⟩
          · simpa [handleCandidate] using
              Nat.find_spec (exists_free_counter seen
                (sanitizeHandle (g.brand ++ "-" ++ g.base_name)))
          · intro j hj
            match j, hj with
            | 0, _ => simp [handleCandidate, hb]
            | 1, _ => simpa [handleCandidate] using not_not.mp h1
            | 2, _ => simpa [handleCandidate] using not_not.mp h2
            | (i + 3), hj =>
                have hi : i < Nat.find (exists_free_counter seen
                    (sanitizeHandle (g.brand ++ "-" ++ g.base_name))) := by omega
                simpa [handleCandidate] using
                  not_not.mp (Nat.find_min (exists_free_counter seen
                    (sanitizeHandle (g.brand ++ "-" ++ g.base_name))) hi)

def w2Var : ProductData :=
  { brand := "Acme", upc_code := "5555", name := "Tonic", quantity := 1, price := 6 }

def w2Group : ProductGroup := { base_name := "Tonic", brand := "Acme", variants := [w2Var] }

/-- C2 witness: two groups with the same brand and base name still get
distinct handles, and against a seen-set already holding the base handle
the candidate order law applies to `w2Group`. -/
theorem C2_handle_uniqueness_witness :
    (issuedHandles [] [w2Group, w2Group]).Nodup ∧
    w2Group.variants = w2Var :: [] ∧
    (∃ k, generateUniqueHandle ["acme-tonic"] w2Group = handleCandidate w2Group w2Var.upc_code k ∧
      handleCandidate w2Group w2Var.upc_code k ∉ ["acme-tonic"] ∧
      ∀ j < k, handleCandidate w2Group w2Var.upc_code j ∈ ["acme-tonic"]) :=
  ⟨C2_handle_uniqueness.1 [w2Group, w2Group], rfl,
   C2_handle_uniqueness.2 ["acme-tonic"] w2Group w2Var [] rfl⟩

lemma charListLe_cons_iff (x y : Char) (xs ys : List Char) :
    charListLe (x :: xs) (y :: ys) = true ↔ x < y ∨ (x = y ∧ charListLe xs ys = true) := by
  simp only [charListLe]
  rcases lt_trichotomy x y with h | h | h
  · simp [h]
  · simp [h, lt_irrefl]
  · rw [if_neg (lt_asymm h), if_pos h]
    constructor
    · intro hf; exact absurd hf (by simp)
    · rintro (h2 | ⟨rfl, _⟩)
      · exact absurd h2 (lt_asymm h)
      · exact absurd h (lt_irrefl _)

lemma charListLe_total : ∀ a b : List Char, charListLe a b = true ∨ charListLe b a = true := by
  intro a
  induction a with
  | nil => intro b; left; rfl
  | cons x xs ih =>
      intro b
      cases b with
      | nil => right; rfl
      | cons y ys =>
          rcases lt_trichotomy x y with h | h | h
          · exact Or.inl ((charListLe_cons_iff x y xs ys).mpr (Or.inl h))
          · rcases ih ys with h2 | h2
            · exact Or.inl ((charListLe_cons_iff x y xs ys).mpr (Or.inr ⟨h, h2⟩))
            · exact Or.inr ((charListLe_cons_iff y x ys xs).mpr (Or.inr ⟨h.symm, h2⟩))
          · exact Or.inr ((charListLe_cons_iff y x ys xs).mpr (Or.inl h))

lemma charListLe_trans : ∀ a b c : List Char,
    charListLe a b = true → charListLe b c = true → charListLe a c = true := by
  intro a
  induction a with
  | nil => intro b c _ _; rfl
  | cons x xs ih =>
      intro b c hab hbc
      cases b with
      | nil => simp [charListLe] at hab
      | cons y ys =>
          cases c with
          | nil => simp [charListLe] at hbc
          | cons z zs =>
              rcases (charListLe_cons_iff x y xs ys).mp hab with h1 | ⟨h1, h1r⟩ <;>
                rcases (charListLe_cons_iff y z ys zs).mp hbc with h2 | ⟨h2, h2r⟩
              · exact (charListLe_cons_iff x z xs zs).mpr (Or.inl (lt_trans h1 h2))
              · exact (charListLe_cons_iff x z xs zs).mpr (Or.inl (h2 ▸ h1))
              · exact (charListLe_cons_iff x z xs zs).mpr (Or.inl (h1 ▸ h2))
              · exact (charListLe_cons_iff x z xs zs).mpr
                  (Or.inr ⟨h1.trans h2, ih ys zs h1r h2r⟩)

lemma strLe_total (a b : String) : strLe a b = true ∨ strLe b a = true :=
  charListLe_total a.data b.data

lemma strLe_trans (a b c : String) (h1 : strLe a b = true) (h2 : strLe b c = true) :
    strLe a c = true :=
  charListLe_trans a.data b.data c.data h1 h2

lemma insertBy_perm {α : Type} (le : α → α → Bool) (x : α) (l : List α) :
    (insertBy le x l).Perm (x :: l) := by
  induction l with
  | nil => exact List.Perm.refl _
  | cons y ys ih =>
      simp only [insertBy]
      split
      · exact List.Perm.refl _
      · exact (ih.cons y).trans (List.Perm.swap x y ys)

lemma sortBy_perm {α : Type} (le : α → α → Bool) (l : List α) :
    (sortBy le l).Perm l := by
  induction l with
  | nil => exact List.Perm.refl _
  | cons x xs ih => exact (insertBy_perm le x (sortBy le xs)).trans (ih.cons x)

lemma insertBy_pairwise {α : Type} (le : α → α → Bool)
    (htrans : ∀ a b c, le a b = true → le b c = true → le a c = true)
    (htot : ∀ a b, le a b = true ∨ le b a = true)
    (x : α) (l : List α) (hp : l.Pairwise (fun a b => le a b = true)) :
    (insertBy le x l).Pairwise (fun a b => le a b = true) := by
  induction l with
  | nil => simp [insertBy]
  | cons y ys ih =>
      rcases List.pairwise_cons.mp hp with ⟨hy, hys⟩
      simp only [insertBy]
      split
      · rename_i hxy
        refine List.pairwise_cons.mpr ⟨?_, hp⟩
        intro z hz
        rcases List.mem_cons.mp hz with rfl | hz2
        · exact hxy
        · exact htrans x y z hxy (hy z hz2)
      · rename_i hxy
        have hyx : le y x = true := by
          rcases htot x y with h | h
          · exact absurd h hxy
          · exact h
        refine List.pairwise_cons.mpr ⟨?_, ih hys⟩
        intro z hz
        rcases List.mem_cons.mp ((insertBy_perm le x ys).mem_iff.mp hz) with rfl | hz2
        · exact hyx
        · exact hy z hz2

lemma sortBy_pairwise {α : Type} (le : α → α → Bool)
    (htrans : ∀ a b c, le a b = true → le b c = true → le a c = true)
    (htot : ∀ a b, le a b = true ∨ le b a = true) (l : List α) :
    (sortBy le l).Pairwise (fun a b => le a b = true) := by
  induction l with
  | nil => simp [sortBy]
  | cons x xs ih => exact insertBy_pairwise le htrans htot x (sortBy le xs) ih

lemma mem_dedupFirstAux : ∀ (l seen : List String) (x : String),
    x ∈ dedupFirstAux seen l ↔ x ∈ l ∧ x ∉ seen := by
  intro l
  induction l with
  | nil => intro seen x; simp [dedupFirstAux]
  | cons y ys ih =>
      intro seen x
      simp only [dedupFirstAux]
      split
      · rename_i hy
        rw [ih seen x]
        simp only [List.mem_cons]
        constructor
        · rintro ⟨h1, h2⟩; exact ⟨Or.inr h1, h2⟩
        · rintro ⟨h1 | h1, h2⟩
          · exact absurd (h1 ▸ hy) h2
          · exact ⟨h1, h2⟩
      · rename_i hy
        simp only [List.mem_cons, ih (y :: seen) x, List.mem_cons]
        constructor
        · rintro (rfl | ⟨h1, h2⟩)
          · exact ⟨Or.inl rfl, hy⟩
          · exact ⟨Or.inr h1, fun hx => h2 (Or.inr hx)⟩
        · rintro ⟨h1 | h1, h2⟩
          · exact Or.inl h1
          · by_cases hxy : x = y
            · exact Or.inl hxy
            · exact Or.inr ⟨h1, by rintro (h | h); exact hxy h; exact h2 h⟩

lemma nodup_dedupFirstAux : ∀ (l seen : List String), (dedupFirstAux seen l).Nodup := by
  intro l
  induction l with
  | nil => intro seen; simp [dedupFirstAux]
  | cons y ys ih =>
      intro seen
      simp only [dedupFirstAux]
      split
      · exact ih seen
      · refine List.nodup_cons.mpr ⟨?_, ih (y :: seen)⟩
        intro hy
        exact ((mem_dedupFirstAux ys (y :: seen) y).mp hy).2 (by simp)

lemma mem_dedupFirst (l : List String) (x : String) : x ∈ dedupFirst l ↔ x ∈ l := by
  rw [dedupFirst, mem_dedupFirstAux]
  simp

lemma nodup_dedupFirst (l : List String) : (dedupFirst l).Nodup :=
  nodup_dedupFirstAux l []

lemma optionCounts_keys (sets : List (List String)) :
    (optionCounts sets).map (·.1) = dedupFirst sets.flatten := by
  simp [optionCounts, List.map_map, Function.comp_def]

lemma mem_optionCounts (sets : List (List String)) (pr : String × Nat) :
    pr ∈ optionCounts sets ↔
      pr.1 ∈ dedupFirst sets.flatten ∧
      pr.2 = (sets.filter (fun s2 => pr.1 ∈ s2)).length := by
  simp only [optionCounts, List.mem_map]
  constructor
  · rintro ⟨c, hc, rfl⟩
    exact ⟨hc, rfl⟩
  · rintro ⟨h1, h2⟩
    exact ⟨pr.1, h1, by rw [← h2]⟩

/-- Bridge: the integer comparison embedding `count >= max(1, 0.3 * n)`
agrees with the rational threshold. -/
lemma meetsSupport_iff (n c : Nat) :
    meetsSupport n c = true ↔ supportThreshold n ≤ (c : Rat) := by
  simp only [meetsSupport, supportThreshold, Bool.and_eq_true, decide_eq_true_eq, max_le_iff]
  constructor
  · rintro ⟨h1, h2⟩
    refine ⟨by exact_mod_cast h1, ?_⟩
    have h2r : ((3 * n : Nat) : Rat) ≤ ((10 * c : Nat) : Rat) := by exact_mod_cast h2
    push_cast at h2r
    linarith
  · rintro ⟨h1, h2⟩
    refine ⟨by exact_mod_cast h1, ?_⟩
    have : ((3 * n : Nat) : Rat) ≤ ((10 * c : Nat) : Rat) := by push_cast; linarith
    exact_mod_cast this

lemma getD_take3 {α : Type} (l : List α) (i : Nat) (d : α) (hi : i < 3) :
    (l.take 3).getD i d = l.getD i d := by
  simp only [List.getD_eq_getElem?_getD]
  rw [List.getElem?_take_of_lt hi]

/-- Modelled from the spec, for comparison with the code: "the qualifying
categories fill the Option1/Option2/Option3 name slots ordered by first
appearance among the product's variants" — qualification (support
threshold) as in the code, order of first appearance instead of
`sorted()`. -/
def specOptionNamesFirstAppearance (variants : List ProductData) : Option OptionNames :=
  (variants.mapM seenInVariant).map (fun sets =>
    let cats := dedupFirst sets.flatten
    let qualifying := (cats.filter
      (fun c => meetsSupport variants.length ((sets.filter (fun s2 => c ∈ s2)).length))).take 3
    { o1 := qualifying.getD 0 "", o2 := qualifying.getD 1 "", o3 := qualifying.getD 2 "" })

/-- A single variant exhibiting the categories `Zebra` then `Apple` (in
that order of first appearance). -/
def c5Variants : List ProductData :=
  [{ brand := "A", upc_code := "1", name := "x", quantity := 1, price := 0,
     variants := [("Zebra", "a"), ("Apple", "b")] }]

/-- C5 counterexample: the code fills the slots in ascending lexicographic
order (`sorted(option_counts.items())`), not in order of first appearance:
for a variant exhibiting `Zebra` before `Apple`, the code puts `Apple`
into `Option1 Name`, while the claimed first-appearance order puts
`Zebra` first. -/
theorem C5_counterexample :
    extractStandardOptionNames c5Variants = some { o1 := "Apple", o2 := "Zebra", o3 := "" } ∧
    specOptionNamesFirstAppearance c5Variants =
      some { o1 := "Zebra", o2 := "Apple", o3 := "" } ∧
    extractStandardOptionNames c5Variants ≠ specOptionNamesFirstAppearance c5Variants := by
  refine ⟨by decide, by decide, by decide⟩

/-- C5 (amended): the option-schema normaliser selects at most 3 canonical
categories: exactly the categories exhibited by at least
`max(1, 0.3 * variantCount)` distinct variants qualify, the qualifying
categories fill the `Option1/2/3 Name` slots in ascending lexicographic
(code-point) order of the category name, and when fewer than 3 qualify the
remaining slots are blank. -/
theorem C5_option_schema_amended (variants : List ProductData) (s : OptionNames)
    (h : extractStandardOptionNames variants = some s) :
    ∃ (sets : List (List String)) (q : List String),
      variants.mapM seenInVariant = some sets ∧
      qualifyingCategories variants = some q ∧
      s.o1 = q.getD 0 "" ∧ s.o2 = q.getD 1 "" ∧ s.o3 = q.getD 2 "" ∧
      q.Pairwise (fun a b => strLe a b = true ∧ a ≠ b) ∧
      (∀ c, c ∈ q ↔ c ∈ sets.flatten ∧
        supportThreshold variants.length ≤
          (((sets.filter (fun s2 => c ∈ s2)).length : Nat) : Rat)) := by
  cases hsets : variants.mapM seenInVariant with
  | none =>
      rw [extractStandardOptionNames, qualifyingCategories, hsets] at h
      simp at h
  | some sets =>
      have hq : qualifyingCategories variants = some (((sortBy (fun a b => strLe a.1 b.1)
          (optionCounts sets)).filter
            (fun p => meetsSupport variants.length p.2)).map (·.1)) := by
        rw [qualifyingCategories, hsets]
        rfl
      set q := ((sortBy (fun a b => strLe a.1 b.1) (optionCounts sets)).filter
        (fun p => meetsSupport variants.length p.2)).map (·.1) with hqdef
      rw [extractStandardOptionNames, hq] at h
      simp only [Option.bind_eq_bind, Option.some_bind, Option.pure_def,
        Option.some.injEq] at h
      have hperm := sortBy_perm (fun a b : String × Nat => strLe a.1 b.1) (optionCounts sets)
      refine ⟨sets, q, rfl, hq, ?_, ?_, ?_, ?_, ?_⟩
      · rw [← h]; exact getD_take3 q 0 "" (by omega)
      · rw [← h]; exact getD_take3 q 1 "" (by omega)
      · rw [← h]; exact getD_take3 q 2 "" (by omega)
      · have hsorted : (sortBy (fun a b : String × Nat => strLe a.1 b.1)
            (optionCounts sets)).Pairwise (fun a b => strLe a.1 b.1 = true) :=
          sortBy_pairwise (fun a b : String × Nat => strLe a.1 b.1)
            (fun a b c => strLe_trans a.1 b.1 c.1)
            (fun a b => strLe_total a.1 b.1) (optionCounts sets)
        have hple : q.Pairwise (fun a b => strLe a b = true) :=
          List.pairwise_map.mpr (hsorted.filter _)
        have hnodup : q.Nodup := by
          have hkeys : ((sortBy (fun a b : String × Nat => strLe a.1 b.1)
              (optionCounts sets)).map (·.1)).Nodup := by
            rw [(hperm.map (·.1)).nodup_iff, optionCounts_keys]
            exact nodup_dedupFirst _
          exact (List.Sublist.map (fun p : String × Nat => p.1)
            (List.filter_sublist _)).nodup hkeys
        exact hple.and hnodup
      · intro c
        rw [hqdef]
        simp only [List.mem_map, List.mem_filter]
        constructor
        · rintro ⟨pr, ⟨hmem, hmeets⟩, rfl⟩
          have h2 := (mem_optionCounts sets pr).mp (hperm.mem_iff.mp hmem)
          rw [← meetsSupport_iff]
          rw [(mem_dedupFirst _ _)] at h2
          exact ⟨h2.1, by rw [← h2.2]; exact hmeets⟩
        · rintro ⟨h1, h2⟩
          refine ⟨(c, (sets.filter (fun s2 => c ∈ s2)).length), ⟨?_, ?_⟩, rfl⟩
          · exact hperm.mem_iff.mpr ((mem_optionCounts sets _).mpr
              ⟨(mem_dedupFirst _ _).mpr h1, rfl⟩)
          · exact (meetsSupport_iff _ _).mpr h2

/-- C5 witness: the amended law applied to `c5Variants`. -/
theorem C5_option_schema_amended_witness :
    extractStandardOptionNames c5Variants = some { o1 := "Apple", o2 := "Zebra", o3 := "" } ∧
    ∃ (sets : List (List String)) (q : List String),
      c5Variants.mapM seenInVariant = some sets ∧
      qualifyingCategories c5Variants = some q ∧
      "Apple" = q.getD 0 "" ∧
      "Zebra" = q.getD 1 "" ∧
      "" = q.getD 2 "" ∧
      q.Pairwise (fun a b => strLe a b = true ∧ a ≠ b) ∧
      (∀ c, c ∈ q ↔ c ∈ sets.flatten ∧
        supportThreshold c5Variants.length ≤
          (((sets.filter (fun s2 => c ∈ s2)).length : Nat) : Rat)) :=
  ⟨by decide, C5_option_schema_amended c5Variants
    { o1 := "Apple", o2 := "Zebra", o3 := "" } (by decide)⟩

/-- Bridge: the integer comparison embedding `ratio >= 0.7` agrees with
the rational ratio against the rational threshold. -/
lemma ratioMeetsThreshold_iff (sa sb : String) :
    ratioMeetsThreshold sa sb = true ↔ similarityThreshold ≤ ratioOf sa sb := by
  simp only [ratioMeetsThreshold, ratioOf, similarityThreshold, decide_eq_true_eq]
  by_cases hT : sa.data.length + sb.data.length = 0
  · rw [if_pos hT, hT]
    simp
    norm_num
  · rw [if_neg hT]
    have hTpos : (0 : Rat) < ((sa.data.length + sb.data.length : Nat) : Rat) := by
      have : 0 < sa.data.length + sb.data.length := Nat.pos_of_ne_zero hT
      exact_mod_cast this
    rw [div_le_div_iff (by norm_num) hTpos]
    constructor
    · intro h
      have hr : ((7 * (sa.data.length + sb.data.length) : Nat) : Rat) ≤
          ((20 * totalMatching sa sb : Nat) : Rat) := by exact_mod_cast h
      push_cast at hr
      push_cast
      linarith
    · intro h
      have hr : ((7 * (sa.data.length + sb.data.length) : Nat) : Rat) ≤
          ((20 * totalMatching sa sb : Nat) : Rat) := by push_cast at h ⊢; linarith
      exact_mod_cast hr

/-- Bridge: the `tails`/`isPrefixOf` implementation of Python `in` agrees
with the infix relation. -/
lemma containsSubstr_iff (s sub : String) :
    containsSubstr s sub = true ↔ sub.data <:+: s.data := by
  simp only [containsSubstr, List.any_eq_true]
  constructor
  · rintro ⟨t, ht, hpre⟩
    exact List.infix_iff_prefix_suffix.mpr
      ⟨t, List.isPrefixOf_iff_prefix.mp hpre, (List.mem_tails _ _).mp ht⟩
  · intro h
    obtain ⟨t, hpre, hsuf⟩ := List.infix_iff_prefix_suffix.mp h
    exact ⟨t, (List.mem_tails _ _).mpr hsuf, List.isPrefixOf_iff_prefix.mpr hpre⟩

def c6Seed : ProductData :=
  { brand := "Acme", upc_code := "61", name := "Pure Gold", quantity := 1, price := 1 }

def c6Cand : ProductData :=
  { brand := "Acme", upc_code := "62", name := "pure, magnificent gold.", quantity := 1,
    price := 1 }

/-- C6 counterexample: the claim's clause (c) compares the two *base
names* (`"Pure Gold"` and `"Pure Magnificent Gold"`), under which the
candidate would be assigned to the seed's cluster — the seed's two
non-stop-word tokens `pure`, `gold` are a subset of the candidate's base
name tokens; but the code checks the seed's tokens against the
candidate's *raw* name tokens (`pure,`, `magnificent`, `gold.`, with
punctuation attached), finds no subset, the ratio 0.6 stays below 0.7,
the substring test fails, and the two variants land in two distinct
clusters. -/
theorem C6_counterexample :
    isSimilar (extractBaseName c6Seed.name) c6Cand.name = false ∧
    extractBaseName c6Cand.name = "Pure Magnificent Gold" ∧
    (2 ≤ (dedupFirst ((pySplitWs (pyLower (extractBaseName c6Seed.name))).filter
        (· ∉ stopTokens))).length ∧
      ∀ w ∈ dedupFirst ((pySplitWs (pyLower (extractBaseName c6Seed.name))).filter
        (· ∉ stopTokens)),
        w ∈ dedupFirst ((pySplitWs (pyLower (extractBaseName c6Cand.name))).filter
          (· ∉ stopTokens))) ∧
    (groupProducts [c6Seed, c6Cand]).length = 2 := by
  refine ⟨by decide, by decide, by decide, by decide⟩

/-- C6 (amended): a remaining variant is assigned to the current seed's
cluster iff (a) the similarity ratio of the two derived base names meets
the 0.7 threshold, or (b) the seed's base name is a (case-insensitive)
substring of the candidate's raw name, or (c) the seed's base name has at
least two distinct non-stop-word tokens and every one of them occurs among
the candidate's *raw* name's non-stop-word tokens. -/
theorem C6_similarity_amended (baseName productName : String) :
    isSimilar baseName productName = true ↔
      (similarityThreshold ≤ ratioOf (pyLower baseName) (pyLower (extractBaseName productName)) ∨
       (pyLower baseName).data <:+: (pyLower productName).data ∨
       (2 ≤ (dedupFirst ((pySplitWs (pyLower baseName)).filter (· ∉ stopTokens))).length ∧
        ∀ w ∈ (pySplitWs (pyLower baseName)).filter (· ∉ stopTokens),
          w ∈ pySplitWs (pyLower productName))) := by
  simp only [isSimilar]
  by_cases h1 : ratioMeetsThreshold (pyLower baseName)
      (pyLower (extractBaseName productName)) = true
  · simp only [h1, if_true]
    simp only [true_iff]
    exact Or.inl ((ratioMeetsThreshold_iff _ _).mp h1)
  · rw [Bool.not_eq_true] at h1
    simp only [h1, Bool.false_eq_true, if_false]
    by_cases h2 : containsSubstr (pyLower productName) (pyLower baseName) = true
    · simp only [h2, if_true, true_iff]
      exact Or.inr (Or.inl ((containsSubstr_iff _ _).mp h2))
    · rw [Bool.not_eq_true] at h2
      simp only [h2, Bool.false_eq_true, if_false, Bool.and_eq_true, decide_eq_true_eq]
      constructor
      · rintro ⟨hlen, hsub⟩
        refine Or.inr (Or.inr ⟨hlen, ?_⟩)
        intro w hw
        have hw2 := hsub w ((mem_dedupFirst _ _).mpr hw)
        have hw3 := (mem_dedupFirst _ _).mp hw2
        exact (List.mem_filter.mp hw3).1
      · rintro (hr | hs | ⟨hlen, hsub⟩)
        · exact absurd ((ratioMeetsThreshold_iff _ _).mpr hr) (by simp [h1])
        · exact absurd ((containsSubstr_iff _ _).mpr hs) (by simp [h2])
        · refine ⟨hlen, ?_⟩
          intro w hw
          have hw1 := (mem_dedupFirst _ _).mp hw
          refine (mem_dedupFirst _ _).mpr (List.mem_filter.mpr ?_)
          exact ⟨hsub w hw1, (List.mem_filter.mp hw1).2⟩

/-- Erase the back-reference the grouper writes into each variant, to
compare cluster membership independently of it. -/
def clearGroupId (v : ProductData) : ProductData := { v with product_group_id := none }

lemma flatMap_perm_congr {α β : Type} (l : List α) (f g : α → List β)
    (h : ∀ a ∈ l, (f a).Perm (g a)) : (l.flatMap f).Perm (l.flatMap g) := by
  induction l with
  | nil => simp
  | cons a l ih =>
      simp only [List.flatMap_cons]
      exact (h a (by simp)).append (ih (fun x hx => h x (by simp [hx])))

lemma groupBySimilarityAux_perm (brand : String) :
    ∀ (fuel : Nat) (ps : List ProductData), ps.length ≤ fuel →
      (((groupBySimilarityAux brand fuel ps).flatMap (·.variants)).map clearGroupId).Perm
        (ps.map clearGroupId) ∧
      ∀ g ∈ groupBySimilarityAux brand fuel ps, g.variants ≠ [] := by
  intro fuel
  induction fuel with
  | zero =>
      intro ps hps
      have hnil : ps = [] := List.length_eq_zero.mp (Nat.le_zero.mp hps)
      subst hnil
      simp [groupBySimilarityAux]
  | succ fuel ih =>
      intro ps hps
      cases ps with
      | nil => simp [groupBySimilarityAux]
      | cons seed rest =>
          simp only [groupBySimilarityAux, List.partition_eq_filter_filter]
          obtain ⟨ihperm, ihne⟩ := ih (rest.filter
            (not ∘ fun p => isSimilar (extractBaseName seed.name) p.name))
            (by
              have := List.length_filter_le
                (not ∘ fun p => isSimilar (extractBaseName seed.name) p.name) rest
              simp only [List.length_cons] at hps
              omega)
          constructor
          · simp only [List.flatMap_cons, List.map_append, foldl_addVariant,
              List.nil_append, List.map_map]
            have hclear : ∀ (l : List ProductData) (gid : String),
                l.map (clearGroupId ∘ fun p => { p with product_group_id := some gid }) =
                  l.map clearGroupId :=
              fun l gid => List.map_congr_left (fun a _ => rfl)
            rw [hclear]
            refine List.Perm.trans (List.Perm.append (List.Perm.refl _) ihperm) ?_
            rw [← List.map_append, List.cons_append]
            refine List.Perm.map clearGroupId (List.Perm.cons seed ?_)
            simpa [Function.comp_def] using List.filter_append_perm
              (fun p => isSimilar (extractBaseName seed.name) p.name) rest
          · intro g hg
            rcases List.mem_cons.mp hg with rfl | hg2
            · rw [foldl_addVariant]
              simp
            · exact ihne g hg2

lemma mem_foldl_brandKeys : ∀ (l : List ProductData) (acc : List String) (x : String),
    x ∈ acc →
    x ∈ l.foldl (fun ks p => if pyStrip p.brand ∈ ks then ks else ks ++ [pyStrip p.brand]) acc := by
  intro l
  induction l with
  | nil => intro acc x hx; exact hx
  | cons p l ih =>
      intro acc x hx
      simp only [List.foldl_cons]
      split
      · exact ih acc x hx
      · exact ih _ x (by simp [hx])

lemma brandKeys_complete : ∀ (l : List ProductData) (acc : List String) (p : ProductData),
    p ∈ l →
    pyStrip p.brand ∈
      l.foldl (fun ks p => if pyStrip p.brand ∈ ks then ks else ks ++ [pyStrip p.brand]) acc := by
  intro l
  induction l with
  | nil => intro acc p hp; simp at hp
  | cons q l ih =>
      intro acc p hp
      rcases List.mem_cons.mp hp with rfl | hp2
      · simp only [List.foldl_cons]
        split
        · exact mem_foldl_brandKeys l acc _ (by assumption)
        · exact mem_foldl_brandKeys l _ _ (by simp)
      · simp only [List.foldl_cons]
        exact ih _ p hp2

lemma brandKeys_nodup : ∀ (l : List ProductData) (acc : List String), acc.Nodup →
    (l.foldl (fun ks p => if pyStrip p.brand ∈ ks then ks else ks ++ [pyStrip p.brand])
      acc).Nodup := by
  intro l
  induction l with
  | nil => intro acc h; exact h
  | cons p l ih =>
      intro acc h
      simp only [List.foldl_cons]
      split
      · exact ih acc h
      · refine ih _ (List.nodup_append.mpr ⟨h, List.nodup_singleton _, ?_⟩)
        intro a ha hb
        rename_i hnm
        rw [List.mem_singleton.mp hb] at ha
        exact hnm ha

lemma keyed_partition_perm : ∀ (keys : List String), keys.Nodup →
    ∀ (l : List ProductData), (∀ p ∈ l, pyStrip p.brand ∈ keys) →
      (keys.flatMap (fun b => l.filter (fun p => pyStrip p.brand == b))).Perm l := by
  intro keys
  induction keys with
  | nil =>
      intro _ l hall
      have : l = [] :=
        List.eq_nil_iff_forall_not_mem.mpr (fun p hp => by simpa using hall p hp)
      subst this
      simp
  | cons k ks ih =>
      intro hnd l hall
      obtain ⟨hk, hksnd⟩ := List.nodup_cons.mp hnd
      simp only [List.flatMap_cons]
      have hrest : ks.flatMap (fun b => l.filter (fun p => pyStrip p.brand == b)) =
          ks.flatMap (fun b => (l.filter (fun p => !(pyStrip p.brand == k))).filter
            (fun p => pyStrip p.brand == b)) := by
        rw [List.flatMap_def, List.flatMap_def]
        congr 1
        refine List.map_congr_left (fun b hb => ?_)
        rw [List.filter_filter]
        refine (List.filter_congr (fun p _ => ?_)).symm
        by_cases hpb : pyStrip p.brand = b
        · have hbk : ¬b = k := fun he => hk (he ▸ hb)
          have hpk : ¬(pyStrip p.brand = k) := fun he => hbk (hpb.symm.trans he)
          simp [hpb, hpk, hbk]
        · simp [hpb]
      rw [hrest]
      have hl2 : ∀ p ∈ l.filter (fun p => !(pyStrip p.brand == k)), pyStrip p.brand ∈ ks := by
        intro p hp
        obtain ⟨hpl, hpne⟩ := List.mem_filter.mp hp
        rcases List.mem_cons.mp (hall p hpl) with he | he
        · simp [he] at hpne
        · exact he
      exact (List.Perm.append (List.Perm.refl _) (ih hksnd _ hl2)).trans
        (List.filter_append_perm (fun p => pyStrip p.brand == k) l)

lemma filter_name_map_pgid (test : String → Bool) (f : ProductData → Option String) :
    ∀ l : List ProductData,
      List.filter (fun p => test p.name) (l.map (fun v =>
        ({ v with product_group_id := f v } : ProductData))) =
      (l.filter (fun p => test p.name)).map (fun v =>
        ({ v with product_group_id := f v } : ProductData)) := by
  intro l
  induction l with
  | nil => rfl
  | cons x xs ih =>
      simp only [List.map_cons, List.filter_cons]
      have hx : (({ x with product_group_id := f x } : ProductData)).name = x.name := rfl
      rw [hx]
      by_cases ht : test x.name
      · simp only [ht, if_true, ih, List.map_cons]
      · simp only [ht, Bool.false_eq_true, if_false, ih]

lemma groupBySimilarityAux_map_pgid (brand : String) :
    ∀ (fuel : Nat) (ps : List ProductData) (f : ProductData → Option String),
      groupBySimilarityAux brand fuel
        (ps.map (fun v => { v with product_group_id := f v })) =
      groupBySimilarityAux brand fuel ps := by
  intro fuel
  induction fuel with
  | zero => intro ps f; simp [groupBySimilarityAux]
  | succ fuel ih =>
      intro ps f
      cases ps with
      | nil => simp [groupBySimilarityAux]
      | cons seed rest =>
          simp only [List.map_cons, groupBySimilarityAux, List.partition_eq_filter_filter,
            Function.comp_def]
          rw [filter_name_map_pgid (fun n => isSimilar (extractBaseName seed.name) n) f rest,
            filter_name_map_pgid (fun n => !isSimilar (extractBaseName seed.name) n) f rest,
            ih (rest.filter (fun p => !isSimilar (extractBaseName seed.name) p.name)) f]
          congr 1
          rw [foldl_addVariant, foldl_addVariant]
          congr 1
          simp only [List.nil_append, List.map_cons, List.map_map]
          congr 1

lemma brandKeys_map_pgid (vs : List ProductData) (f : ProductData → Option String) :
    brandKeys (vs.map (fun v => { v with product_group_id := f v })) = brandKeys vs := by
  simp only [brandKeys, List.foldl_map]

/-- C7: clustering is a partition of its input and is insensitive to the
`product_group_id` back-references it writes: (1) the concatenation of all
output groups' variant lists is a permutation of the input (each variant
is placed in exactly one group, counting multiplicity); (2) every output
group is non-empty (a 1-variant cluster is a valid outcome, and the total
function never raises); (3) re-running on the input list as mutated by a
previous run (any rewriting of `product_group_id`, the only field the
grouper writes) returns the identical group list, which with (purely
functional) determinism gives idempotence of cluster membership. -/
theorem C7_grouping_partition_idempotent (vs : List ProductData) :
    (((groupProducts vs).flatMap (·.variants)).map clearGroupId).Perm
      (vs.map clearGroupId) ∧
    (∀ g ∈ groupProducts vs, g.variants ≠ []) ∧
    (∀ f : ProductData → Option String,
      groupProducts (vs.map (fun v => { v with product_group_id := f v })) =
        groupProducts vs) := by
  refine ⟨?_, ?_, ?_⟩
  · by_cases hvs : vs = []
    · subst hvs; simp [groupProducts]
    · rw [groupProducts, if_neg hvs]
      rw [groupByBrand, List.flatMap_map, List.flatMap_assoc, List.map_flatMap]
      have h1 : ∀ b ∈ brandKeys vs,
          (((groupBySimilarity b (vs.filter (fun p => pyStrip p.brand == b))).flatMap
            (·.variants)).map clearGroupId).Perm
          ((vs.filter (fun p => pyStrip p.brand == b)).map clearGroupId) := by
        intro b _
        exact (groupBySimilarityAux_perm b _ _ (le_refl _)).1
      refine ((flatMap_perm_congr _ _ _ h1).trans ?_)
      rw [← List.map_flatMap]
      exact List.Perm.map clearGroupId
        (keyed_partition_perm (brandKeys vs) (brandKeys_nodup vs [] (by simp)) vs
          (fun p hp => brandKeys_complete vs [] p hp))
  · intro g hg
    by_cases hvs : vs = []
    · subst hvs; simp [groupProducts] at hg
    · rw [groupProducts, if_neg hvs] at hg
      obtain ⟨bp, _, hg2⟩ := List.mem_flatMap.mp hg
      exact (groupBySimilarityAux_perm bp.1 _ _ (le_refl _)).2 g hg2
  · intro f
    by_cases hvs : vs = []
    · subst hvs; rfl
    · have hne : vs.map (fun v => ({ v with product_group_id := f v } : ProductData)) ≠ [] := by
        simpa using hvs
      rw [groupProducts, groupProducts, if_neg hvs, if_neg hne]
      rw [groupByBrand, groupByBrand, brandKeys_map_pgid]
      rw [List.flatMap_map, List.flatMap_map, List.flatMap_def, List.flatMap_def]
      congr 1
      refine List.map_congr_left (fun b _ => ?_)
      rw [List.filter_map]
      have hcomp : ((fun p : ProductData => pyStrip p.brand == b) ∘
          (fun v => ({ v with product_group_id := f v } : ProductData))) =
          (fun p : ProductData => pyStrip p.brand == b) := rfl
      rw [hcomp]
      rw [groupBySimilarity, groupBySimilarity, List.length_map]
      exact groupBySimilarityAux_map_pgid b _ _ f

def w7Var : ProductData :=
  { brand := "Acme", upc_code := "7777", name := "Serum", quantity := 1, price := 9 }

/-- C7 witness: the partition/idempotence theorem instantiated at a concrete
one-variant input list. -/
theorem C7_grouping_partition_idempotent_witness :
    (((groupProducts [w7Var]).flatMap (·.variants)).map clearGroupId).Perm
      ([w7Var].map clearGroupId) ∧
    (∀ g ∈ groupProducts [w7Var], g.variants ≠ []) ∧
    (∀ f : ProductData → Option String,
      groupProducts ([w7Var].map (fun v => { v with product_group_id := f v })) =
        groupProducts [w7Var]) :=
  C7_grouping_partition_idempotent [w7Var]

end STF
